import Mathlib

/-!
# Markov decision processes: planning routines, environment simulator and learning agents

A shallow embedding of `max.c`, `utilities.c`, `value_iteration.c`,
`policy_evaluation.c`, `policy_iteration.c`, `environment.c`, `qlearn.c` and `td.c`,
followed by the properties proved about them.

Modelling conventions.

* A C `double` is a rational number (`ℚ`): arithmetic and comparisons are exact, so
  rounding, infinities and NaN are outside the model.
* A C `unsigned int` is a natural number.  No loop counter can wrap: each is bounded by
  a length that is itself an `unsigned int`.  The one expression that can wrap,
  `numStates - 1` in `environment_run_trial`, is written with its wrap (`unsigned_pred`).
  The conversion `int util_length = p_mdp->numStates` is taken to keep the value.
* A C array (a pointer) is a total map from index to element; an array of length `n` is
  the part of the map below `n`.  Block operations (`bzero`, `memcpy`) touch exactly the
  indices below the length they are given.  Every read is therefore defined, and a
  statement about valid indices carries its bounds explicitly.
* `assert` failing aborts the program; a function that can abort returns `Option`, with
  `none` for the abort.
* A `for` loop over all states is a left fold over `List.range numStates`; the scan of
  `arg_max_value` is a recursion on the number of iterations left; a `do ... while` loop
  is a recursive function on a sweep budget that returns `none` when the budget runs out
  before the loop condition turns false.
* `value_iteration`, `policy_evaluation` and `policy_iteration` call `calc_meu` and
  `calc_eu` of `utilities.c`.  Their loops are embedded over an arbitrary implementation
  of the callee (`value_iteration_with`, `policy_evaluation_with`,
  `policy_iteration_with`), and the repository's functions are these loops over the
  repository's `calc_meu` and `calc_eu`.
* `random ()` is a sequence of natural numbers read through a counter; `RAND_MAX` is a
  parameter.
* The persistent variables of an agent are a record that `rl_agent_action` takes and
  returns; `environment_run_trial` and `environment_run` are embedded against an
  arbitrary agent.  `qlearn.c` and `td.c` both define `rl_agent_action`; the two
  embeddings live in the namespaces `QLearn` and `TD`.
-/

set_option autoImplicit false
set_option linter.unusedVariables false

namespace Mdp

/-! ## max.c -/

/-- The `for` loop of `arg_max_value` (max.c, lines 90-95).  `k` is the number of
iterations still to run, `i` the loop variable, `max` and `arg` the two locals.  The
caller starts it with `k = len - 1` and `i = 1`, so the iterations are `i = 1 .. len-1`. -/
def arg_max_scan (indices : Nat → Nat) (values : Nat → ℚ) : Nat → Nat → ℚ → Nat → Nat
  | 0, _, _, arg => arg
  | k + 1, i, max, arg =>
    if max < values (indices i) then
      arg_max_scan indices values k (i + 1) (values (indices i)) (indices i)
    else
      arg_max_scan indices values k (i + 1) max arg

/-- Embedding of `arg_max_value` (max.c, lines 78-97): `assert (len>0)`, start with the
first entry, scan the rest with a strict comparison. -/
def arg_max_value (len : Nat) (indices : Nat → Nat) (values : Nat → ℚ) : Option Nat :=
  if 0 < len then
    some (arg_max_scan indices values (len - 1) 1 (values (indices 0)) (indices 0))
  else
    none

/-- Embedding of `max_value` (max.c, lines 43-48):
`return values[arg_max_value(len, indices, values)]`. -/
def max_value (len : Nat) (indices : Nat → Nat) (values : Nat → ℚ) : Option ℚ :=
  match arg_max_value len indices values with
  | some arg => some (values arg)
  | none => none

/-- A three-entry index array `{2, 0, 1}` used to exercise the extremum routines. -/
def sampleIndices : Nat → Nat := fun i => [2, 0, 1].getD i 0

/-- A value array `{7, 7, 5}`: the maximum 7 is attained at indices 0 and 1. -/
def sampleValues : Nat → ℚ := fun i => [7, 7, 5].getD i 0

/-! ## The MDP record -/

/-- Modelled from the spec: the `mdp` record declared in `mdp.h`, which is not among the
sources.  The fields are those of the data model: `numStates`, `numActions`, `start`,
`rewards[s]`, `terminal[s]`, `numAvailableActions[s]`, the ordered list `actions[s][i]`
of the actions legal in `s`, and `transitionProb[s'][s][a]`, the probability of reaching
`s'` from `s` under `a`.  The sources read exactly these fields. -/
structure MDP where
  numStates : Nat
  numActions : Nat
  start : Nat
  rewards : Nat → ℚ
  terminal : Nat → Bool
  numAvailableActions : Nat → Nat
  actions : Nat → Nat → Nat
  transitionProb : Nat → Nat → Nat → ℚ

/-- What a `calc_eu` implementation is: from the MDP, a state, a utility table and an
action to a number. -/
abbrev EuKernel := MDP → Nat → (Nat → ℚ) → Nat → ℚ

/-- What a `calc_meu` implementation is: from the MDP, a state, a utility table and the
values its two out-parameters `*meu` and `*action` hold on entry, to the values they hold
on return. -/
abbrev MeuKernel := MDP → Nat → (Nat → ℚ) → ℚ → Nat → ℚ × Nat

/-! ## utilities.c -/

/-- Embedding of `calc_eu` (utilities.c, lines 6-17): `double eu = 0;`, a warning on
`stderr`, `return eu;`.  No argument is read. -/
def calc_eu : EuKernel := fun _p_mdp _state _utilities _action =>
  let eu : ℚ := 0
  eu

/-- Embedding of `calc_meu` (utilities.c, lines 19-26): a warning on `stderr` and nothing
else, so `*meu` and `*action` keep the values they had on entry. -/
def calc_meu : MeuKernel := fun _p_mdp _state _utilities meu action =>
  (meu, action)

/-- The expected utility as the specification words it (and as the comment inside
`calc_eu` does): the sum over all next states `s' < numStates` of
`transitionProb[s'][state][action] * utilities[s']`. -/
def calc_eu_spec : EuKernel := fun p_mdp state utilities action =>
  ((List.range p_mdp.numStates).map
    (fun s' => p_mdp.transitionProb s' state action * utilities s')).sum

/-- The maximum expected utility as the specification words it, over a given `calc_eu`:
the maximum over the actions of `actions[state]` of the expected utility, together with
the first action of the list that attains it.  `none` when the state has no action. -/
def calc_meu_spec (eu : EuKernel) (p_mdp : MDP) (state : Nat) (utilities : Nat → ℚ) :
    Option (ℚ × Nat) :=
  match arg_max_value (p_mdp.numAvailableActions state) (p_mdp.actions state)
      (fun a => eu p_mdp state utilities a) with
  | some a => some (eu p_mdp state utilities a, a)
  | none => none

/-- A `calc_meu` that does what the specification says on every state that has an action
(and leaves its out-parameters alone on a state that has none). -/
def calc_meu_documented : MeuKernel := fun p_mdp state utilities meu action =>
  (calc_meu_spec calc_eu_spec p_mdp state utilities).getD (meu, action)

/-! ## Bellman sweeps -/

/-- The shape shared by the loop bodies of `value_iteration` and `policy_evaluation`:
store the new value of `state` in `util_update`, then raise `delta` to the size of the
change when that is larger.  `acc` is the pair `(util_update, delta)`. -/
def bellman_step (newval : Nat → ℚ) (utilities : Nat → ℚ) (acc : (Nat → ℚ) × ℚ)
    (state : Nat) : (Nat → ℚ) × ℚ :=
  let util_update := Function.update acc.1 state (newval state)
  (util_update,
    if |util_update state - utilities state| > acc.2 then
      |util_update state - utilities state|
    else acc.2)

/-- The C library's `memcpy (dst, src, n * sizeof (double))`: the first `n` entries of
`dst` become those of `src`. -/
def memcpy (n : Nat) (dst src : Nat → ℚ) : Nat → ℚ :=
  fun s => if s < n then src s else dst s

/-- The C library's `bzero (dst, n * sizeof (double))`: the first `n` entries become 0. -/
def bzero (n : Nat) (dst : Nat → ℚ) : Nat → ℚ :=
  fun s => if s < n then 0 else dst s

/-! ## value_iteration.c -/

/-- Body of the `for` loop of `value_iteration` (value_iteration.c, lines 38-55) for one
`state`, over a given `calc_meu`.  `acc` is `(util_update, delta)`.  The local `meu` is
initialised to 0; the local `action` is uninitialised in the source and never read, and
is given the value 0 here. -/
def value_iteration_body (meuK : MeuKernel) (p_mdp : MDP) (gamma : ℚ)
    (utilities : Nat → ℚ) (acc : (Nat → ℚ) × ℚ) (state : Nat) : (Nat → ℚ) × ℚ :=
  let util_update :=
    if p_mdp.terminal state then
      Function.update acc.1 state (p_mdp.rewards state)
    else
      let meu : ℚ := 0
      let action : Nat := 0
      let out := meuK p_mdp state utilities meu action
      Function.update acc.1 state (p_mdp.rewards state + gamma * out.1)
  (util_update,
    if |util_update state - utilities state| > acc.2 then
      |util_update state - utilities state|
    else acc.2)

/-- One pass of the `for` loop over all states, started with `delta = 0`. -/
def value_iteration_sweep (meuK : MeuKernel) (p_mdp : MDP) (gamma : ℚ)
    (utilities util_update : Nat → ℚ) : (Nat → ℚ) × ℚ :=
  (List.range p_mdp.numStates).foldl (value_iteration_body meuK p_mdp gamma utilities)
    (util_update, 0)

/-- The `do ... while` loop of `value_iteration` (lines 32-55): copy `util_update` into
`utilities`, sweep, and go round again while `delta > epsilon * (1 - gamma) / gamma`.
The result is the array `utilities` as it stands when the loop is left. -/
def value_iteration_loop (meuK : MeuKernel) (p_mdp : MDP) (epsilon gamma : ℚ) :
    Nat → (Nat → ℚ) → (Nat → ℚ) → Option (Nat → ℚ)
  | 0, _, _ => none
  | fuel + 1, utilities, util_update =>
    let utilities' := memcpy p_mdp.numStates utilities util_update
    let r := value_iteration_sweep meuK p_mdp gamma utilities' util_update
    if r.2 > (epsilon * (1 - gamma)) / gamma then
      value_iteration_loop meuK p_mdp epsilon gamma fuel utilities' r.1
    else
      some utilities'

/-- Embedding of `value_iteration` (value_iteration.c, lines 16-65) over a given
`calc_meu`: `util_update` is a zeroed allocation, `utilities` is zeroed, then the loop
runs.  `fuel` bounds the number of sweeps. -/
def value_iteration_with (meuK : MeuKernel) (p_mdp : MDP) (epsilon gamma : ℚ)
    (utilities : Nat → ℚ) (fuel : Nat) : Option (Nat → ℚ) :=
  value_iteration_loop meuK p_mdp epsilon gamma fuel
    (bzero p_mdp.numStates utilities) (fun _ => 0)

/-- The function `value_iteration` of the repository: the loop above over the repository's
`calc_meu`. -/
def value_iteration (p_mdp : MDP) (epsilon gamma : ℚ) (utilities : Nat → ℚ)
    (fuel : Nat) : Option (Nat → ℚ) :=
  value_iteration_with calc_meu p_mdp epsilon gamma utilities fuel

/-! ## policy_evaluation.c -/

/-- Body of the `for` loop of `policy_evaluation` (policy_evaluation.c, lines 51-65) for
one `state`, over a given `calc_eu`.  The action handed to `calc_eu` is the local
`unsigned int action = 0;`: the parameter `policy` is not read. -/
def policy_evaluation_body (euK : EuKernel) (policy : Nat → Nat) (p_mdp : MDP)
    (gamma : ℚ) (utilities : Nat → ℚ) (acc : (Nat → ℚ) × ℚ) (state : Nat) :
    (Nat → ℚ) × ℚ :=
  let util_update :=
    if p_mdp.terminal state then
      Function.update acc.1 state (p_mdp.rewards state)
    else
      let action : Nat := 0
      Function.update acc.1 state
        (p_mdp.rewards state + gamma * euK p_mdp state utilities action)
  (util_update,
    if |util_update state - utilities state| > acc.2 then
      |util_update state - utilities state|
    else acc.2)

/-- One pass of the `for` loop of `policy_evaluation` over all states, started with
`delta = 0`. -/
def policy_evaluation_sweep (euK : EuKernel) (policy : Nat → Nat) (p_mdp : MDP)
    (gamma : ℚ) (utilities util_update : Nat → ℚ) : (Nat → ℚ) × ℚ :=
  (List.range p_mdp.numStates).foldl
    (policy_evaluation_body euK policy p_mdp gamma utilities) (util_update, 0)

/-- The `do ... while` loop of `policy_evaluation` (lines 48-69): sweep, copy
`util_update` into `utilities`, and go round again while `delta > epsilon`. -/
def policy_evaluation_loop (euK : EuKernel) (policy : Nat → Nat) (p_mdp : MDP)
    (epsilon gamma : ℚ) : Nat → (Nat → ℚ) → (Nat → ℚ) → Option (Nat → ℚ)
  | 0, _, _ => none
  | fuel + 1, utilities, util_update =>
    let r := policy_evaluation_sweep euK policy p_mdp gamma utilities util_update
    let utilities' := memcpy p_mdp.numStates utilities r.1
    if r.2 > epsilon then
      policy_evaluation_loop euK policy p_mdp epsilon gamma fuel utilities' r.1
    else
      some utilities'

/-- Embedding of `policy_evaluation` (policy_evaluation.c, lines 39-73) over a given
`calc_eu`: `util_update` is a zeroed allocation, `utilities` comes from the caller.
`fuel` bounds the number of sweeps. -/
def policy_evaluation_with (euK : EuKernel) (policy : Nat → Nat) (p_mdp : MDP)
    (epsilon gamma : ℚ) (utilities : Nat → ℚ) (fuel : Nat) : Option (Nat → ℚ) :=
  policy_evaluation_loop euK policy p_mdp epsilon gamma fuel utilities (fun _ => 0)

/-- The function `policy_evaluation` of the repository: the loop above over the
repository's `calc_eu`. -/
def policy_evaluation (policy : Nat → Nat) (p_mdp : MDP) (epsilon gamma : ℚ)
    (utilities : Nat → ℚ) (fuel : Nat) : Option (Nat → ℚ) :=
  policy_evaluation_with calc_eu policy p_mdp epsilon gamma utilities fuel

/-! ## The new value of a state in one sweep -/

/-- The value the loop body of `value_iteration` stores for state `s` when the table it
reads is `utilities`: read off the two branches of the body. -/
def value_iteration_new (meuK : MeuKernel) (p_mdp : MDP) (gamma : ℚ)
    (utilities : Nat → ℚ) (s : Nat) : ℚ :=
  if p_mdp.terminal s then p_mdp.rewards s
  else p_mdp.rewards s + gamma * (meuK p_mdp s utilities 0 0).1

/-- The value the loop body of `policy_evaluation` stores for state `s` when the table it
reads is `utilities`: read off the two branches of the body. -/
def policy_evaluation_new (euK : EuKernel) (p_mdp : MDP) (gamma : ℚ)
    (utilities : Nat → ℚ) (s : Nat) : ℚ :=
  if p_mdp.terminal s then p_mdp.rewards s
  else p_mdp.rewards s + gamma * euK p_mdp s utilities 0

/-! ## Example data -/

/-- The two-state MDP of the specification's value-iteration example: state 0 is not
terminal, has reward 0 and the single action 0, which leads to state 1 with probability
1; state 1 is terminal with reward 10. -/
def twoStateMDP : MDP where
  numStates := 2
  numActions := 1
  start := 0
  rewards := fun s => if s = 1 then 10 else 0
  terminal := fun s => decide (s = 1)
  numAvailableActions := fun s => if s = 0 then 1 else 0
  actions := fun _ _ => 0
  transitionProb := fun s' s a => if s' = 1 ∧ s = 0 ∧ a = 0 then 1 else 0

/-- A one-state MDP whose only state is terminal with the small reward 1/1000. -/
def tinyRewardMDP : MDP where
  numStates := 1
  numActions := 1
  start := 0
  rewards := fun _ => 1 / 1000
  terminal := fun _ => true
  numAvailableActions := fun _ => 0
  actions := fun _ _ => 0
  transitionProb := fun _ _ _ => 0

/-- A two-state, two-action MDP in which the actions of state 0 differ: action 0 stays in
state 0, action 1 leads to the terminal state 1 (reward 10). -/
def twoActionMDP : MDP where
  numStates := 2
  numActions := 2
  start := 0
  rewards := fun s => if s = 1 then 10 else 0
  terminal := fun s => decide (s = 1)
  numAvailableActions := fun s => if s = 0 then 2 else 0
  actions := fun _ i => i
  transitionProb := fun s' s a =>
    if (s' = 0 ∧ s = 0 ∧ a = 0) ∨ (s' = 1 ∧ s = 0 ∧ a = 1) then 1 else 0

/-- The policy that chooses action 1 in every state. -/
def policyAllOne : Nat → Nat := fun _ => 1

/-- The utility table `{0, 10}`. -/
def tableZeroTen : Nat → ℚ := fun s => if s = 1 then 10 else 0

/-! ## policy_iteration.c -/

/-- The conversion of a `double` to `unsigned int` that the assignment
`policy[state] = meu` performs: the fractional part is dropped.  (C leaves the conversion
of a value below -1 or above `UINT_MAX` undefined; here a negative value gives 0.) -/
def double_to_unsigned (x : ℚ) : Nat := Int.toNat ⌊x⌋

/-- Body of the `for` loop of `policy_iteration` (policy_iteration.c, lines 58-72) for one
`state`, over given `calc_eu` and `calc_meu`.  `acc` is `(policy, changed)`.  The local
`meu` is initialised to 0, `calc_meu` is called, then `action = 0` and
`eu = calc_eu (p_mdp, state, utilities, action)`; when `meu > eu` the source stores
`meu` itself in `policy[state]`. -/
def policy_iteration_body (euK : EuKernel) (meuK : MeuKernel) (p_mdp : MDP)
    (utilities : Nat → ℚ) (acc : (Nat → Nat) × Bool) (state : Nat) : (Nat → Nat) × Bool :=
  let out := meuK p_mdp state utilities 0 0
  let meu : ℚ := out.1
  let action : Nat := 0
  let eu : ℚ := euK p_mdp state utilities action
  if meu > eu then
    (Function.update acc.1 state (double_to_unsigned meu), true)
  else acc

/-- One improvement pass of `policy_iteration` over all states, started with
`changed = false`. -/
def policy_iteration_sweep (euK : EuKernel) (meuK : MeuKernel) (p_mdp : MDP)
    (utilities : Nat → ℚ) (policy : Nat → Nat) : (Nat → Nat) × Bool :=
  (List.range p_mdp.numStates).foldl (policy_iteration_body euK meuK p_mdp utilities)
    (policy, false)

/-- The `do ... while (changed)` loop of `policy_iteration` (lines 53-73): evaluate the
policy, run the improvement pass, repeat while an entry changed.  `evalFuel` bounds the
sweeps of each `policy_evaluation` call, the recursion argument the number of rounds. -/
def policy_iteration_loop (euK : EuKernel) (meuK : MeuKernel) (p_mdp : MDP)
    (epsilon gamma : ℚ) (evalFuel : Nat) :
    Nat → (Nat → Nat) → (Nat → ℚ) → Option (Nat → Nat)
  | 0, _, _ => none
  | fuel + 1, policy, utilities =>
    match policy_evaluation_with euK policy p_mdp epsilon gamma utilities evalFuel with
    | none => none
    | some utilities' =>
      let r := policy_iteration_sweep euK meuK p_mdp utilities' policy
      if r.2 then
        policy_iteration_loop euK meuK p_mdp epsilon gamma evalFuel fuel r.1 utilities'
      else
        some r.1

/-- Embedding of `policy_iteration` (policy_iteration.c, lines 44-76) over given `calc_eu`
and `calc_meu`: `utilities` is a zeroed allocation, then the loop runs.  The result is the
array `policy` as the loop leaves it. -/
def policy_iteration_with (euK : EuKernel) (meuK : MeuKernel) (p_mdp : MDP)
    (epsilon gamma : ℚ) (policy : Nat → Nat) (evalFuel fuel : Nat) : Option (Nat → Nat) :=
  policy_iteration_loop euK meuK p_mdp epsilon gamma evalFuel fuel policy
    (bzero p_mdp.numStates (fun _ => 0))

/-- The function `policy_iteration` of the repository: the loop above over the
repository's `calc_eu` and `calc_meu`. -/
def policy_iteration (p_mdp : MDP) (epsilon gamma : ℚ) (policy : Nat → Nat)
    (evalFuel fuel : Nat) : Option (Nat → Nat) :=
  policy_iteration_with calc_eu calc_meu p_mdp epsilon gamma policy evalFuel fuel

/-- Body of the `for` loop of `randomize_policy` (policy_iteration.c, lines 107-114).
`acc` is `(policy, k)` with `k` the number of calls of `random ()` made so far; `rand k`
is the value of the call number `k` after `srandom (42)`. -/
def randomize_policy_body (p_mdp : MDP) (rand : Nat → Nat) (acc : (Nat → Nat) × Nat)
    (state : Nat) : (Nat → Nat) × Nat :=
  if p_mdp.numAvailableActions state > 0 then
    let action := rand acc.2 % p_mdp.numAvailableActions state
    (Function.update acc.1 state (p_mdp.actions state action), acc.2 + 1)
  else acc

/-- Embedding of `randomize_policy` (policy_iteration.c, lines 101-116); the result is
the array `policy` after the loop. -/
def randomize_policy (p_mdp : MDP) (rand : Nat → Nat) (policy : Nat → Nat) : Nat → Nat :=
  ((List.range p_mdp.numStates).foldl (randomize_policy_body p_mdp rand) (policy, 0)).1

/-! ## environment.c -/

/-- The memory `environment.c` works in: the `mdp` records by address, the first address
that has not been handed out yet, and the global pointer `p_mdp_env`. -/
structure EnvMemory where
  objects : Nat → MDP
  next : Nat
  p_mdp_env : Nat

/-- Modelled from the spec: `mdp_duplicate`, whose source is not among the files.  The
loader "must also support producing an independent deep copy of a model": the copy is a
record at a fresh address whose fields equal those of the source, and it shares no array
with it. -/
def mdp_duplicate (mem : EnvMemory) (src : Nat) : Nat × EnvMemory :=
  (mem.next,
    { mem with
      objects := Function.update mem.objects mem.next (mem.objects src)
      next := mem.next + 1 })

/-- The assignment `p->transitionProb[s][t][a] = v`. -/
def store_transition (mem : EnvMemory) (p s t a : Nat) (v : ℚ) : EnvMemory :=
  { mem with
    objects := Function.update mem.objects p
      { mem.objects p with
        transitionProb := fun s' t' a' =>
          if s' = s ∧ t' = t ∧ a' = a then v else (mem.objects p).transitionProb s' t' a' } }

/-- The assignment `p->rewards[s] = v`. -/
def store_reward (mem : EnvMemory) (p s : Nat) (v : ℚ) : EnvMemory :=
  { mem with
    objects := Function.update mem.objects p
      { mem.objects p with rewards := Function.update (mem.objects p).rewards s v } }

/-- The first loop nest of `environment_get_mdp` (environment.c, lines 32-36,
"Zero-out transition probabilities"): `p->transitionProb[s][t][a] = 0.0` for every
`s, t < numStates` and `a < numActions`. -/
def zero_transitions (mem : EnvMemory) (p numStates numActions : Nat) : EnvMemory :=
  (List.range numStates).foldl (fun mem s =>
    (List.range numStates).foldl (fun mem t =>
      (List.range numActions).foldl (fun mem a =>
        store_transition mem p s t a 0) mem) mem) mem

/-- The second loop of `environment_get_mdp` (lines 38-40, "Zero-out rewards"):
`p->rewards[s] = 0` for every `s < numStates`. -/
def zero_rewards (mem : EnvMemory) (p numStates : Nat) : EnvMemory :=
  (List.range numStates).foldl (fun mem s => store_reward mem p s 0) mem

/-- Embedding of `environment_get_mdp` (environment.c, lines 26-43): duplicate the
environment's MDP, zero every entry of the copy's `transitionProb`, zero every entry of
its `rewards`, return the copy's address.  The loop bounds are the `numStates` and
`numActions` of the environment's MDP; no assignment of the function writes these fields,
so they are read once.  The result is the returned pointer and the memory after the
call. -/
def environment_get_mdp (mem : EnvMemory) : Nat × EnvMemory :=
  let d := mdp_duplicate mem mem.p_mdp_env
  let p_mdp_out := d.1
  let numStates := (d.2.objects d.2.p_mdp_env).numStates
  let numActions := (d.2.objects d.2.p_mdp_env).numActions
  (p_mdp_out,
    zero_rewards (zero_transitions d.2 p_mdp_out numStates numActions) p_mdp_out numStates)

/-- The value of `numStates - 1` in `unsigned int` arithmetic (32 bits): it wraps to
`UINT_MAX` when `numStates = 0`. -/
def unsigned_pred (numStates : Nat) : Nat := (numStates + 4294967295) % 4294967296

/-- The inner `do ... while` loop of `environment_run_trial` (environment.c, lines
95-103): add `transitionProb[nextState][state][action]` to `cumProb`, leave with
`nextState` when `cumProb > randNum`, otherwise increment `nextState` and go round again
while `nextState < numStates - 1`.  The first argument bounds the number of iterations;
`none` means the bound was reached. -/
def sample_scan (p_mdp_env : MDP) (state action : Nat) (randNum : ℚ) :
    Nat → ℚ → Nat → Option Nat
  | 0, _, _ => none
  | fuel + 1, cumProb, nextState =>
    if cumProb + p_mdp_env.transitionProb nextState state action > randNum then
      some nextState
    else if nextState + 1 < unsigned_pred p_mdp_env.numStates then
      sample_scan p_mdp_env state action randNum fuel
        (cumProb + p_mdp_env.transitionProb nextState state action) (nextState + 1)
    else
      some (nextState + 1)

/-- The sampling step of `environment_run_trial` (lines 88-105) for the draw
`randNum`: `cumProb = 0.0`, `nextState = 0`, then the scan.  The scan makes at most
`numStates` iterations when `numStates ≥ 1`. -/
def sample_next_state (p_mdp_env : MDP) (state action : Nat) (randNum : ℚ) : Option Nat :=
  sample_scan p_mdp_env state action randNum p_mdp_env.numStates 0 0

/-- The sum of `transitionProb[i][state][action]` over the next states `i < t`. -/
def mass_below (p_mdp_env : MDP) (state action t : Nat) : ℚ :=
  ((List.range t).map (fun i => p_mdp_env.transitionProb i state action)).sum

/-- The cumulative sum `transitionProb[0][state][action] + ... +
transitionProb[t][state][action]`. -/
def cumulative_prob (p_mdp_env : MDP) (state action t : Nat) : ℚ :=
  mass_below p_mdp_env state action (t + 1)

/-- The outcome of a trial: the agent's state after it, the number of calls of
`random ()` made so far, and the `(state, reward)` pairs handed to `rl_agent_action`, in
order (a record kept for the statements about the trial, not a variable of the source). -/
structure TrialOutcome (α : Type) where
  agent : α
  draws : Nat
  calls : List (Nat × ℚ)

/-- The outer `do ... while (1)` loop of `environment_run_trial` (environment.c, lines
75-109) against an agent with state space `α`: take the reward of `state`, call
`rl_agent_action`, stop when `state` is terminal, otherwise draw
`randNum = random () / RAND_MAX`, sample the next state and go round again.
`rl_agent_action` returns `none` when it aborts; `random k` is the value of the call
number `k` of `random ()`; the first argument after them bounds the number of steps. -/
def environment_run_trial_loop {α : Type} (rl_agent_action : α → Nat → ℚ → Option (Nat × α))
    (p_mdp_env : MDP) (RAND_MAX : Nat) (random : Nat → Nat) :
    Nat → Nat → α → Nat → List (Nat × ℚ) → Option (TrialOutcome α)
  | 0, _, _, _, _ => none
  | fuel + 1, state, agent, draws, calls =>
    let reward := p_mdp_env.rewards state
    match rl_agent_action agent state reward with
    | none => none
    | some (action, agent') =>
      if p_mdp_env.terminal state then
        some { agent := agent', draws := draws, calls := calls ++ [(state, reward)] }
      else
        let randNum : ℚ := (random draws : ℚ) / (RAND_MAX : ℚ)
        match sample_next_state p_mdp_env state action randNum with
        | none => none
        | some nextState =>
          environment_run_trial_loop rl_agent_action p_mdp_env RAND_MAX random fuel
            nextState agent' (draws + 1) (calls ++ [(state, reward)])

/-- Embedding of `environment_run_trial` (environment.c, lines 61-110): the loop above
started in `p_mdp_env->start`. -/
def environment_run_trial {α : Type} (rl_agent_action : α → Nat → ℚ → Option (Nat × α))
    (p_mdp_env : MDP) (RAND_MAX : Nat) (random : Nat → Nat) (fuel : Nat) (agent : α)
    (draws : Nat) : Option (TrialOutcome α) :=
  environment_run_trial_loop rl_agent_action p_mdp_env RAND_MAX random fuel
    p_mdp_env.start agent draws []

/-- An agent without state that always answers action 0. -/
def constant_agent : Unit → Nat → ℚ → Option (Nat × Unit) := fun _ _ _ => some (0, ())

/-- The value of `RAND_MAX` in the GNU C library, 2^31 - 1, which is also the largest
value `random ()` returns. -/
def glibc_RAND_MAX : Nat := 2147483647

/-- A one-state MDP whose only state is not terminal and leads back to itself with
probability 1 under its single action. -/
def selfLoopMDP : MDP where
  numStates := 1
  numActions := 1
  start := 0
  rewards := fun _ => 0
  terminal := fun _ => false
  numAvailableActions := fun _ => 1
  actions := fun _ _ => 0
  transitionProb := fun s' s a => if s' = 0 ∧ s = 0 ∧ a = 0 then 1 else 0

/-- A three-state chain: action 0 leads from state 0 to state 1 and from state 1 to
state 2 with probability 1; state 2 is terminal with reward 1. -/
def chainMDP : MDP where
  numStates := 3
  numActions := 1
  start := 0
  rewards := fun s => if s = 2 then 1 else 0
  terminal := fun s => decide (s = 2)
  numAvailableActions := fun s => if s < 2 then 1 else 0
  actions := fun _ _ => 0
  transitionProb := fun s' s a =>
    if (s' = 1 ∧ s = 0 ∧ a = 0) ∨ (s' = 2 ∧ s = 1 ∧ a = 0) then 1 else 0

/-- A memory that holds the two-state MDP at address 0, the environment's MDP. -/
def sampleMemory : EnvMemory where
  objects := fun _ => twoStateMDP
  next := 1
  p_mdp_env := 0

/-! ## qlearn.c -/

/-- The assignment `table[s][a] = v` on a state-action table. -/
def set_entry (table : Nat → Nat → ℚ) (s a : Nat) (v : ℚ) : Nat → Nat → ℚ :=
  Function.update table s (Function.update (table s) a v)

/-- Modelled from the spec: `mdp_malloc_state_action`, whose source is not among the
files: "given `numStates`, `numActions`, returns a zero-initialized two-dimensional
real-valued table, independently owned". -/
def mdp_malloc_state_action (numStates numActions : Nat) : Nat → Nat → ℚ :=
  fun _ _ => 0

namespace QLearn

/-- The persistent variables of qlearn.c (lines 13-26). -/
structure Agent where
  p_mdp : MDP
  gamma : ℚ
  state_action_freq : Nat → Nat → ℚ
  state_action_value : Nat → Nat → ℚ
  prevState : Nat
  prevAction : Nat
  prevReward : ℚ
  prevValid : Bool
  bestReward : ℚ
  minTries : ℚ

/-- The persistent variables when the program starts: C zero-initialises objects with
static storage, and `prevValid` is initialised to `false`.  The pointers are null; the MDP
and the tables they will point to are stood for by an empty MDP and zero tables. -/
def program_start : Agent where
  p_mdp :=
    { numStates := 0, numActions := 0, start := 0, rewards := fun _ => 0,
      terminal := fun _ => false, numAvailableActions := fun _ => 0,
      actions := fun _ _ => 0, transitionProb := fun _ _ _ => 0 }
  gamma := 0
  state_action_freq := fun _ _ => 0
  state_action_value := fun _ _ => 0
  prevState := 0
  prevAction := 0
  prevReward := 0
  prevValid := false
  bestReward := 0
  minTries := 0

/-- Embedding of `qlearn_initialize` (qlearn.c, lines 65-86).  `prevState`, `prevAction`
and `prevReward` are not assigned. -/
def qlearn_initialize (g : Agent) (p_mdp_in : MDP) (gamma_in reward attempts : ℚ) : Agent :=
  { g with
    p_mdp := p_mdp_in
    gamma := gamma_in
    bestReward := reward
    minTries := attempts
    state_action_freq := mdp_malloc_state_action p_mdp_in.numStates p_mdp_in.numActions
    state_action_value := mdp_malloc_state_action p_mdp_in.numStates p_mdp_in.numActions
    prevValid := false }

/-- Embedding of `updateWeight` (qlearn.c, lines 112-115). -/
def updateWeight (freq : ℚ) : ℚ := 60 / (59 + freq)

/-- Embedding of `exploration_function` (qlearn.c, lines 142-148); it reads the
persistent variables `minTries` and `bestReward`. -/
def exploration_function (g : Agent) (u n : ℚ) : ℚ :=
  if n < g.minTries then g.bestReward else u

/-- Lines 165-174 of `rl_agent_action`: on a terminal state every
`state_action_value[state][action]` with `action < numActions` is set to `reward` and
`maxQ = reward`; otherwise `maxQ = max_value (...)`, which aborts on an empty action
list.  The result is the agent after the step and `maxQ`. -/
def observe (g : Agent) (state : Nat) (reward : ℚ) : Option (Agent × ℚ) :=
  if g.p_mdp.terminal state then
    some ({ g with
      state_action_value := (List.range g.p_mdp.numActions).foldl
        (fun table action => set_entry table state action reward) g.state_action_value },
      reward)
  else
    match max_value (g.p_mdp.numAvailableActions state) (g.p_mdp.actions state)
        (g.state_action_value state) with
    | some maxQ => some (g, maxQ)
    | none => none

/-- Lines 176-180 of `rl_agent_action`: when `prevValid`, increment
`state_action_freq[prevState][prevAction]` and then add to
`state_action_value[prevState][prevAction]` the weighted difference to the target. -/
def learn (g : Agent) (maxQ : ℚ) : Agent :=
  if g.prevValid then
    let freq := set_entry g.state_action_freq g.prevState g.prevAction
      (g.state_action_freq g.prevState g.prevAction + 1)
    { g with
      state_action_freq := freq
      state_action_value := set_entry g.state_action_value g.prevState g.prevAction
        (g.state_action_value g.prevState g.prevAction +
          updateWeight (freq g.prevState g.prevAction) *
            (g.prevReward + g.gamma * maxQ -
              g.state_action_value g.prevState g.prevAction)) }
  else g

/-- Body of the selection loop of `rl_agent_action` (lines 186-191) for the loop variable
`action`, with the running `prevAction`: the tables are read at the column `action`, the
loop variable itself, and at the column `prevAction`; when the first exploration value is
strictly larger, `prevAction` becomes `actions[state][action]`. -/
def select_body (g : Agent) (state : Nat) (prevAction action : Nat) : Nat :=
  if exploration_function g (g.state_action_value state action)
        (g.state_action_freq state action) >
      exploration_function g (g.state_action_value state prevAction)
        (g.state_action_freq state prevAction) then
    g.p_mdp.actions state action
  else prevAction

/-- Lines 182-194 of `rl_agent_action`: on a terminal state clear `prevValid`; otherwise
set `prevState`, run the selection loop over `action < numAvailableActions[state]`
starting from the `prevAction` left by the previous call, and set `prevReward` and
`prevValid`. -/
def choose (g : Agent) (state : Nat) (reward : ℚ) : Agent :=
  if g.p_mdp.terminal state then
    { g with prevValid := false }
  else
    { g with
      prevState := state
      prevAction := (List.range (g.p_mdp.numAvailableActions state)).foldl
        (select_body g state) g.prevAction
      prevReward := reward
      prevValid := true }

/-- Embedding of the Q-learning `rl_agent_action` (qlearn.c, lines 163-197): the three
steps in order, then `return prevAction`.  `none` is the abort of `max_value`. -/
def rl_agent_action (g : Agent) (state : Nat) (reward : ℚ) : Option (Nat × Agent) :=
  match observe g state reward with
  | none => none
  | some (g1, maxQ) =>
    let g3 := choose (learn g1 maxQ) state reward
    some (g3.prevAction, g3)

end QLearn

/-- A two-state MDP with two actions of which only action 1 is available in state 0: it
leads to the terminal state 1 with probability 1.  The rewards are -1 and -10. -/
def secondActionMDP : MDP where
  numStates := 2
  numActions := 2
  start := 0
  rewards := fun s => if s = 1 then -10 else -1
  terminal := fun s => decide (s = 1)
  numAvailableActions := fun s => if s = 0 then 1 else 0
  actions := fun _ _ => 1
  transitionProb := fun s' s a => if s' = 1 ∧ s = 0 ∧ a = 1 then 1 else 0

/-- The Q-learning agent after `qlearn_initialize` on the second-action MDP with
`gamma = 0.9`, optimistic reward 0 and `attempts = 0`. -/
def freshSecondAction : QLearn.Agent :=
  QLearn.qlearn_initialize QLearn.program_start secondActionMDP (9 / 10) 0 0

/-! ## environment.c: the draw and the loop over trials -/

/-- The draw of `environment_run_trial` (environment.c, line 89),
`randNum = ((double) random ()) / RAND_MAX`, for the value `k` returned by `random ()`. -/
def random_draw (RAND_MAX k : Nat) : ℚ := (k : ℚ) / (RAND_MAX : ℚ)

/-- Embedding of `environment_run` (environment.c, lines 50-57): `environment_run_trial`
is called `trials` times, each trial starting from the agent state and the position in
the random sequence the previous one left.  `trialFuel` bounds the steps of each trial.
The result is the agent state and the number of draws after the last trial. -/
def environment_run {α : Type} (rl_agent_action : α → Nat → ℚ → Option (Nat × α))
    (p_mdp_env : MDP) (RAND_MAX : Nat) (random : Nat → Nat) (trialFuel : Nat) :
    Nat → α → Nat → Option (α × Nat)
  | 0, agent, draws => some (agent, draws)
  | trials + 1, agent, draws =>
    match environment_run_trial rl_agent_action p_mdp_env RAND_MAX random trialFuel agent
        draws with
    | none => none
    | some out =>
      environment_run rl_agent_action p_mdp_env RAND_MAX random trialFuel trials out.agent
        out.draws

/-! ## td.c -/

namespace TD

/-- The persistent variables of td.c (lines 11-22). -/
structure Agent where
  p_mdp : MDP
  gamma : ℚ
  policy : Nat → Nat
  utilities : Nat → ℚ
  state_freq : Nat → ℚ
  prevState : Nat
  prevAction : Nat
  prevReward : ℚ
  prevValid : Bool

/-- Embedding of `td_initialize` (td.c, lines 51-89): `utilities` and `state_freq` are
zeroed allocations and `prevValid` is cleared.  `policy` is allocated without being
written; `main` fills it from standard input afterwards, which the argument `policy_in`
stands for.  The remaining variables keep the value they had in `g`. -/
def td_initialize (g : Agent) (p_mdp_in : MDP) (gamma_in : ℚ) (policy_in : Nat → Nat) :
    Agent :=
  { g with
    p_mdp := p_mdp_in
    gamma := gamma_in
    policy := policy_in
    utilities := fun _ => 0
    state_freq := fun _ => 0
    prevValid := false }

/-- The persistent variables when the program starts: C zero-initialises objects with
static storage, and `prevValid` is initialised to `false`. -/
def program_start : Agent where
  p_mdp :=
    { numStates := 0, numActions := 0, start := 0, rewards := fun _ => 0,
      terminal := fun _ => false, numAvailableActions := fun _ => 0,
      actions := fun _ _ => 0, transitionProb := fun _ _ _ => 0 }
  gamma := 0
  policy := fun _ => 0
  utilities := fun _ => 0
  state_freq := fun _ => 0
  prevState := 0
  prevAction := 0
  prevReward := 0
  prevValid := false

/-- Embedding of `updateWeight` (td.c, lines 137-141). -/
def updateWeight (freq : ℚ) : ℚ := 60 / (59 + freq)

/-- Embedding of the passive-TD `rl_agent_action` (td.c, lines 161-165):
`return policy[state];` and nothing else.  No persistent variable is written. -/
def rl_agent_action (g : Agent) (state : Nat) (reward : ℚ) : Option (Nat × Agent) :=
  some (g.policy state, g)

end TD

/-! ## Further example data -/

/-- The deterministic single-action two-state MDPs: state 0 is the start state, not
terminal, with reward `r0` and the single available action `a`, which leads to state 1
with probability 1; state 1 is terminal with reward `r1`.  The MDP has the actions
`0 .. a`. -/
def singleActionMDP (a : Nat) (r0 r1 : ℚ) : MDP where
  numStates := 2
  numActions := a + 1
  start := 0
  rewards := fun s => if s = 1 then r1 else r0
  terminal := fun s => decide (s = 1)
  numAvailableActions := fun s => if s = 0 then 1 else 0
  actions := fun _ _ => a
  transitionProb := fun s' s a' => if s' = 1 ∧ s = 0 ∧ a' = a then 1 else 0

/-- The Q-learning agent after `qlearn_initialize` on a single-action MDP with
`attempts = 0`. -/
def freshSingleAction (a : Nat) (r0 r1 gamma reward : ℚ) : QLearn.Agent :=
  QLearn.qlearn_initialize QLearn.program_start (singleActionMDP a r0 r1) gamma reward 0

/-- A two-state MDP whose start state 0 is not terminal and has no available action;
state 1 is terminal. -/
def deadStartMDP : MDP where
  numStates := 2
  numActions := 1
  start := 0
  rewards := fun s => if s = 1 then 1 else 0
  terminal := fun s => decide (s = 1)
  numAvailableActions := fun _ => 0
  actions := fun _ _ => 0
  transitionProb := fun _ _ _ => 0

/-- The Q-learning agent after `qlearn_initialize` on the dead-start MDP. -/
def freshDeadStart : QLearn.Agent :=
  QLearn.qlearn_initialize QLearn.program_start deadStartMDP (9 / 10) 0 0

/-- The passive-TD agent after `td_initialize` on the second-action MDP with
`gamma = 0.9` and the policy that chooses action 1 in every state. -/
def freshTD : TD.Agent :=
  TD.td_initialize TD.program_start secondActionMDP (9 / 10) policyAllOne

/-- The list `p0, 0, 1, 2, ...` in which the selection loop of the Q-learning agent meets
its candidates when `actions[state]` is the identity: position 0 holds the incoming
`prevAction`, position `j + 1` the action `j`. -/
def selection_order (p0 : Nat) (j : Nat) : Nat :=
  match j with
  | 0 => p0
  | j + 1 => j

/-! ## Segments of the Q-learning step, named for the proofs -/

/-- The agent after the loop of `rl_agent_action` over a terminal `state` (qlearn.c, lines
167-171): the first branch of `observe`. -/
def QLearn.terminal_agent (g : QLearn.Agent) (state : Nat) (reward : ℚ) : QLearn.Agent :=
  { g with
    state_action_value := (List.range g.p_mdp.numActions).foldl
      (fun table action => set_entry table state action reward) g.state_action_value }

/-- The exploration value `f (Q[state][x], N[state][x])` of the column `x`, as the
selection loop of the Q-learning `rl_agent_action` computes it (qlearn.c, lines 187-188). -/
def QLearn.exploration_value (g : QLearn.Agent) (state x : Nat) : ℚ :=
  QLearn.exploration_function g (g.state_action_value state x) (g.state_action_freq state x)

/-- A two-state MDP with two actions of which only action 0 is available in state 0: it
leads to the terminal state 1 with probability 1.  The action list of state 0 is the
identity. -/
def firstActionMDP : MDP where
  numStates := 2
  numActions := 2
  start := 0
  rewards := fun s => if s = 1 then 10 else 0
  terminal := fun s => decide (s = 1)
  numAvailableActions := fun s => if s = 0 then 1 else 0
  actions := fun _ i => i
  transitionProb := fun s' s a => if s' = 1 ∧ s = 0 ∧ a = 0 then 1 else 0

/-- The Q-learning agent after `qlearn_initialize` on the first-action MDP with
`gamma = 0.9`, optimistic reward 0 and `attempts = 0`, holding the stale `prevAction = 1`
of an earlier run. -/
def staleAgent : QLearn.Agent :=
  { QLearn.qlearn_initialize QLearn.program_start firstActionMDP (9 / 10) 0 0 with
    prevAction := 1 }

/-- The stale agent with a pending transition: state 0, action 0, reward 0. -/
def pendingAgent : QLearn.Agent :=
  { staleAgent with prevState := 0, prevAction := 0, prevReward := 0, prevValid := true }

/-! ## Properties of max.c -/

/-- Loop invariant of `arg_max_scan`: if on entry the pair `(max, arg)` is the value and
index at a position `p` below `i` that is the first maximal position among `0 .. i-1`,
then the result is the index at the first maximal position among `0 .. i+k-1`. -/
theorem arg_max_scan_spec (indices : Nat → Nat) (values : Nat → ℚ) :
    ∀ (k i p : Nat), p < i →
      (∀ q, q < i → values (indices q) ≤ values (indices p)) →
      (∀ q, q < p → values (indices q) < values (indices p)) →
      ∃ p', p' < i + k ∧
        arg_max_scan indices values k i (values (indices p)) (indices p) = indices p' ∧
        (∀ q, q < i + k → values (indices q) ≤ values (indices p')) ∧
        (∀ q, q < p' → values (indices q) < values (indices p')) := by
  intro k
  induction k with
  | zero =>
    intro i p hp hle hlt
    exact ⟨p, by omega, rfl, by simpa using hle, hlt⟩
  | succ k ih =>
    intro i p hp hle hlt
    by_cases hcmp : values (indices p) < values (indices i)
    · have hle' : ∀ q, q < i + 1 → values (indices q) ≤ values (indices i) := by
        intro q hq
        rcases Nat.lt_succ_iff_lt_or_eq.mp hq with h | h
        · exact le_of_lt (lt_of_le_of_lt (hle q h) hcmp)
        · rw [h]
      have hlt' : ∀ q, q < i → values (indices q) < values (indices i) :=
        fun q hq => lt_of_le_of_lt (hle q hq) hcmp
      obtain ⟨p', hp', hres, hmax, hfirst⟩ := ih (i + 1) i (Nat.lt_succ_self i) hle' hlt'
      refine ⟨p', by omega, ?_, ?_, hfirst⟩
      · rw [arg_max_scan, if_pos hcmp]
        exact hres
      · intro q hq
        exact hmax q (by omega)
    · have hge : values (indices i) ≤ values (indices p) := not_lt.mp hcmp
      have hle' : ∀ q, q < i + 1 → values (indices q) ≤ values (indices p) := by
        intro q hq
        rcases Nat.lt_succ_iff_lt_or_eq.mp hq with h | h
        · exact hle q h
        · rw [h]; exact hge
      obtain ⟨p', hp', hres, hmax, hfirst⟩ := ih (i + 1) p (by omega) hle' hlt
      refine ⟨p', by omega, ?_, ?_, hfirst⟩
      · rw [arg_max_scan, if_neg hcmp]
        exact hres
      · intro q hq
        exact hmax q (by omega)

/-- For a non-empty sequence `arg_max_value` returns the index stored at the first
position whose value is maximal. -/
theorem arg_max_value_first_max (len : Nat) (indices : Nat → Nat) (values : Nat → ℚ)
    (hlen : 0 < len) :
    ∃ p, p < len ∧ arg_max_value len indices values = some (indices p) ∧
      (∀ q, q < len → values (indices q) ≤ values (indices p)) ∧
      (∀ q, q < p → values (indices q) < values (indices p)) := by
  obtain ⟨p, hp, hres, hmax, hfirst⟩ :=
    arg_max_scan_spec indices values (len - 1) 1 0 Nat.zero_lt_one
      (fun q hq => by
        have : q = 0 := by omega
        rw [this])
      (fun q hq => absurd hq (Nat.not_lt_zero q))
  have hlen' : 1 + (len - 1) = len := by omega
  rw [hlen'] at hp hmax
  refine ⟨p, hp, ?_, hmax, hfirst⟩
  rw [arg_max_value, if_pos hlen, hres]

/-- The sample call: positions 1 and 2 both hold the maximal value 7 (through indices 0
and 1); the index at the earlier position, 0, is returned. -/
theorem arg_max_value_sample : arg_max_value 3 sampleIndices sampleValues = some 0 := by
  norm_num [arg_max_value, arg_max_scan, sampleIndices, sampleValues]

/-- C1: for every `len > 0`, `arg_max_value len indices values` returns an index `j`
that occurs in `indices` (at a position below `len`), and no index `k` occurring in
`indices` has `values[k] > values[j]`. -/
theorem arg_max_value_maximal (len : Nat) (indices : Nat → Nat) (values : Nat → ℚ)
    (hlen : 0 < len) :
    ∃ j, arg_max_value len indices values = some j ∧
      (∃ p, p < len ∧ indices p = j) ∧
      ∀ k, (∃ q, q < len ∧ indices q = k) → ¬ (values k > values j) := by
  obtain ⟨p, hp, hres, hmax, _⟩ := arg_max_value_first_max len indices values hlen
  refine ⟨indices p, hres, ⟨p, hp, rfl⟩, ?_⟩
  rintro k ⟨q, hq, rfl⟩
  exact not_lt.mpr (hmax q hq)

/-- Witness for C1 on the sample arrays (`len = 3`). -/
theorem arg_max_value_maximal_witness :
    0 < 3 ∧ ∃ j, arg_max_value 3 sampleIndices sampleValues = some j ∧
      (∃ p, p < 3 ∧ sampleIndices p = j) ∧
      ∀ k, (∃ q, q < 3 ∧ sampleIndices q = k) → ¬ (sampleValues k > sampleValues j) :=
  ⟨by decide, arg_max_value_maximal 3 sampleIndices sampleValues (by decide)⟩

/-- C2: for every non-empty index sequence, `arg_max_value` returns `indices[p]` where
`p` is the smallest position whose value `values[indices[p]]` equals the maximum over
the sequence: the value at `p` bounds every value of the sequence, and every position
`q` with an equal value satisfies `p ≤ q`, so a later tie never replaces an earlier
one. -/
theorem arg_max_value_first_tie (len : Nat) (indices : Nat → Nat) (values : Nat → ℚ)
    (hlen : 0 < len) :
    ∃ p, p < len ∧ arg_max_value len indices values = some (indices p) ∧
      (∀ q, q < len → values (indices q) ≤ values (indices p)) ∧
      (∀ q, q < len → values (indices q) = values (indices p) → p ≤ q) := by
  obtain ⟨p, hp, hres, hmax, hfirst⟩ := arg_max_value_first_max len indices values hlen
  refine ⟨p, hp, hres, hmax, ?_⟩
  intro q _ heq
  by_contra hlt
  exact absurd heq (ne_of_lt (hfirst q (not_le.mp hlt)))

/-- Witness for C2 on the sample arrays, where the maximum 7 is attained twice. -/
theorem arg_max_value_first_tie_witness :
    0 < 3 ∧ ∃ p, p < 3 ∧ arg_max_value 3 sampleIndices sampleValues = some (sampleIndices p) ∧
      (∀ q, q < 3 → sampleValues (sampleIndices q) ≤ sampleValues (sampleIndices p)) ∧
      (∀ q, q < 3 → sampleValues (sampleIndices q) = sampleValues (sampleIndices p) →
        p ≤ q) :=
  ⟨by decide, arg_max_value_first_tie 3 sampleIndices sampleValues (by decide)⟩

/-- C3: for every `len > 0`, `max_value len indices values` returns a value that equals
`values[indices[j]]` for some position `j < len`, is greater than or equal to
`values[indices[k]]` for every position `k < len`, and equals
`values[arg_max_value len indices values]`. -/
theorem max_value_spec (len : Nat) (indices : Nat → Nat) (values : Nat → ℚ)
    (hlen : 0 < len) :
    ∃ v, max_value len indices values = some v ∧
      (∃ j, j < len ∧ v = values (indices j)) ∧
      (∀ k, k < len → values (indices k) ≤ v) ∧
      (∃ a, arg_max_value len indices values = some a ∧ v = values a) := by
  obtain ⟨p, hp, hres, hmax, _⟩ := arg_max_value_first_max len indices values hlen
  refine ⟨values (indices p), ?_, ⟨p, hp, rfl⟩, hmax, ⟨indices p, hres, rfl⟩⟩
  rw [max_value, hres]

/-- Witness for C3 on the sample arrays. -/
theorem max_value_spec_witness :
    0 < 3 ∧ ∃ v, max_value 3 sampleIndices sampleValues = some v ∧
      (∃ j, j < 3 ∧ v = sampleValues (sampleIndices j)) ∧
      (∀ k, k < 3 → sampleValues (sampleIndices k) ≤ v) ∧
      (∃ a, arg_max_value 3 sampleIndices sampleValues = some a ∧ v = sampleValues a) :=
  ⟨by decide, max_value_spec 3 sampleIndices sampleValues (by decide)⟩

/-- C4: `arg_max_value` and `max_value` abort (return `none`) if and only if `len = 0`,
and for every `len > 0` both return a value. -/
theorem max_fails_iff_empty (len : Nat) (indices : Nat → Nat) (values : Nat → ℚ) :
    (arg_max_value len indices values = none ↔ len = 0) ∧
    (max_value len indices values = none ↔ len = 0) ∧
    (0 < len → ∃ a v, arg_max_value len indices values = some a ∧
      max_value len indices values = some v) := by
  rcases Nat.eq_zero_or_pos len with h0 | hpos
  · subst h0
    simp [arg_max_value, max_value]
  · have hne : len ≠ 0 := Nat.pos_iff_ne_zero.mp hpos
    simp [arg_max_value, max_value, hpos, hne]

/-- Witness for C4: on the empty sequence both routines abort, on the sample arrays both
return. -/
theorem max_fails_iff_empty_witness :
    arg_max_value 0 sampleIndices sampleValues = none ∧
    max_value 0 sampleIndices sampleValues = none ∧
    ∃ a v, arg_max_value 3 sampleIndices sampleValues = some a ∧
      max_value 3 sampleIndices sampleValues = some v :=
  ⟨(max_fails_iff_empty 0 sampleIndices sampleValues).1.mpr rfl,
   (max_fails_iff_empty 0 sampleIndices sampleValues).2.1.mpr rfl,
   (max_fails_iff_empty 3 sampleIndices sampleValues).2.2 (by decide)⟩

/-! ## Properties of utilities.c -/

/-- C5 (the code departs from the claim): `calc_eu` returns 0 on every input.  On the
two-state MDP, state 0, action 0 and the table `{0, 10}` the sum over next states of
`transitionProb[s'][0][0] * utilities[s']` is 10, and `calc_eu` returns 0. -/
theorem calc_eu_returns_zero :
    (∀ (m : MDP) (state : Nat) (U : Nat → ℚ) (action : Nat), calc_eu m state U action = 0) ∧
    calc_eu_spec twoStateMDP 0 tableZeroTen 0 = 10 ∧
    calc_eu twoStateMDP 0 tableZeroTen 0 = 0 := by
  refine ⟨fun _ _ _ _ => rfl, ?_, rfl⟩
  norm_num [calc_eu_spec, twoStateMDP, tableZeroTen, List.range_succ]

/-- C6 (the code departs from the claim): `calc_meu` returns its two out-parameters as it
received them.  On the two-action MDP, state 0 and the table `{0, 10}`, entered with
`*meu = 0` and `*action = 7`, it leaves `(0, 7)`; the maximum of the documented expected
utility is 10, first attained by action 1, and the maximum of the repository's `calc_eu`
is 0, first attained by action 0. -/
theorem calc_meu_leaves_outputs :
    (∀ (m : MDP) (state : Nat) (U : Nat → ℚ) (meu : ℚ) (action : Nat),
      calc_meu m state U meu action = (meu, action)) ∧
    calc_meu twoActionMDP 0 tableZeroTen 0 7 = (0, 7) ∧
    calc_meu_spec calc_eu_spec twoActionMDP 0 tableZeroTen = some (10, 1) ∧
    calc_meu_spec calc_eu twoActionMDP 0 tableZeroTen = some (0, 0) := by
  refine ⟨fun _ _ _ _ _ => rfl, rfl, ?_, ?_⟩
  · norm_num [calc_meu_spec, calc_eu_spec, arg_max_value, arg_max_scan, twoActionMDP,
      tableZeroTen, List.range_succ]
  · norm_num [calc_meu_spec, calc_eu, arg_max_value, arg_max_scan, twoActionMDP]

/-! ## Bellman sweeps -/

/-- After a sweep over the states below `n`, `util_update` holds the new value of every
state below `n` and is untouched elsewhere. -/
theorem bellman_fold_fst (newval utilities : Nat → ℚ) (n : Nat) (acc : (Nat → ℚ) × ℚ) :
    ((List.range n).foldl (bellman_step newval utilities) acc).1 =
      fun s => if s < n then newval s else acc.1 s := by
  induction n with
  | zero => simp
  | succ n ih =>
    rw [List.range_succ, List.foldl_append, List.foldl_cons, List.foldl_nil]
    funext s
    simp only [bellman_step, ih]
    by_cases hs : s = n
    · subst hs
      simp
    · rw [Function.update_noteq hs]
      by_cases hlt : s < n
      · simp [hlt, Nat.lt_succ_of_lt hlt]
      · have : ¬ s < n + 1 := by omega
        simp [hlt, this]

/-- After a sweep over the states below `n`, `delta` is at least its initial value, at
least the change of every state below `n`, and equal to one of these. -/
theorem bellman_fold_snd (newval utilities : Nat → ℚ) (n : Nat) (acc : (Nat → ℚ) × ℚ) :
    acc.2 ≤ ((List.range n).foldl (bellman_step newval utilities) acc).2 ∧
    (∀ s, s < n → |newval s - utilities s| ≤
      ((List.range n).foldl (bellman_step newval utilities) acc).2) ∧
    (((List.range n).foldl (bellman_step newval utilities) acc).2 = acc.2 ∨
      ∃ s, s < n ∧ ((List.range n).foldl (bellman_step newval utilities) acc).2 =
        |newval s - utilities s|) := by
  induction n with
  | zero => simp
  | succ n ih =>
    obtain ⟨h1, h2, h3⟩ := ih
    rw [List.range_succ, List.foldl_append, List.foldl_cons, List.foldl_nil]
    generalize (List.range n).foldl (bellman_step newval utilities) acc = r at h1 h2 h3
    simp only [bellman_step, Function.update_same]
    by_cases hc : |newval n - utilities n| > r.2
    · rw [if_pos hc]
      refine ⟨le_trans h1 (le_of_lt hc), ?_, Or.inr ⟨n, Nat.lt_succ_self n, rfl⟩⟩
      intro s hs
      rcases Nat.lt_succ_iff_lt_or_eq.mp hs with h | h
      · exact le_trans (h2 s h) (le_of_lt hc)
      · rw [h]
    · rw [if_neg hc]
      refine ⟨h1, ?_, ?_⟩
      · intro s hs
        rcases Nat.lt_succ_iff_lt_or_eq.mp hs with h | h
        · exact h2 s h
        · rw [h]; exact not_lt.mp hc
      · rcases h3 with h | ⟨s, hs, h⟩
        · exact Or.inl h
        · exact Or.inr ⟨s, Nat.lt_succ_of_lt hs, h⟩

/-- The loop body of `value_iteration` is a Bellman step with `value_iteration_new`. -/
theorem value_iteration_body_eq (meuK : MeuKernel) (m : MDP) (gamma : ℚ)
    (utilities : Nat → ℚ) :
    value_iteration_body meuK m gamma utilities =
      bellman_step (value_iteration_new meuK m gamma utilities) utilities := by
  funext acc state
  unfold value_iteration_body bellman_step value_iteration_new
  by_cases h : m.terminal state = true <;> simp [h]

/-- The loop body of `policy_evaluation` is a Bellman step with `policy_evaluation_new`:
the action handed to the kernel is 0 whatever `policy` holds. -/
theorem policy_evaluation_body_eq (euK : EuKernel) (policy : Nat → Nat) (m : MDP)
    (gamma : ℚ) (utilities : Nat → ℚ) :
    policy_evaluation_body euK policy m gamma utilities =
      bellman_step (policy_evaluation_new euK m gamma utilities) utilities := by
  funext acc state
  unfold policy_evaluation_body bellman_step policy_evaluation_new
  by_cases h : m.terminal state = true <;> simp [h]

/-! ## Properties of value_iteration.c -/

/-- After a sweep of `value_iteration`, `util_update` holds the new value of every state
below `numStates`. -/
theorem value_iteration_sweep_fst (meuK : MeuKernel) (m : MDP) (gamma : ℚ)
    (utilities util_update : Nat → ℚ) :
    (value_iteration_sweep meuK m gamma utilities util_update).1 =
      fun s => if s < m.numStates then value_iteration_new meuK m gamma utilities s
        else util_update s := by
  rw [value_iteration_sweep, value_iteration_body_eq, bellman_fold_fst]

/-- After a sweep of `value_iteration`, `delta` bounds the change of every state. -/
theorem value_iteration_sweep_bound (meuK : MeuKernel) (m : MDP) (gamma : ℚ)
    (utilities util_update : Nat → ℚ) (s : Nat) (hs : s < m.numStates) :
    |value_iteration_new meuK m gamma utilities s - utilities s| ≤
      (value_iteration_sweep meuK m gamma utilities util_update).2 := by
  rw [value_iteration_sweep, value_iteration_body_eq]
  exact (bellman_fold_snd _ utilities m.numStates (util_update, 0)).2.1 s hs

/-- After a sweep of `value_iteration`, `delta` is 0 or the change of some state. -/
theorem value_iteration_sweep_attained (meuK : MeuKernel) (m : MDP) (gamma : ℚ)
    (utilities util_update : Nat → ℚ) :
    (value_iteration_sweep meuK m gamma utilities util_update).2 = 0 ∨
      ∃ s, s < m.numStates ∧
        (value_iteration_sweep meuK m gamma utilities util_update).2 =
          |value_iteration_new meuK m gamma utilities s - utilities s| := by
  rw [value_iteration_sweep, value_iteration_body_eq]
  exact (bellman_fold_snd _ utilities m.numStates (util_update, 0)).2.2

/-- With the repository's `calc_meu` the new value of every state is its reward. -/
theorem value_iteration_new_calc_meu (m : MDP) (gamma : ℚ) (utilities : Nat → ℚ)
    (s : Nat) : value_iteration_new calc_meu m gamma utilities s = m.rewards s := by
  unfold value_iteration_new calc_meu
  by_cases h : m.terminal s = true <;> simp [h]

/-- Loop invariant of `value_iteration`, for any `calc_meu`: once `util_update` holds the
reward of every terminal state, so does the table the loop returns. -/
theorem value_iteration_loop_terminal (meuK : MeuKernel) (m : MDP) (epsilon gamma : ℚ) :
    ∀ (fuel : Nat) (utilities util_update U : Nat → ℚ),
      (∀ s, s < m.numStates → m.terminal s = true → util_update s = m.rewards s) →
      value_iteration_loop meuK m epsilon gamma fuel utilities util_update = some U →
      ∀ s, s < m.numStates → m.terminal s = true → U s = m.rewards s := by
  intro fuel
  induction fuel with
  | zero =>
    intro utilities util_update U _ h
    simp [value_iteration_loop] at h
  | succ fuel ih =>
    intro utilities util_update U hinv h s hs hterm
    simp only [value_iteration_loop] at h
    split at h
    · refine ih _ _ U ?_ h s hs hterm
      intro t ht htterm
      rw [value_iteration_sweep_fst]
      simp [ht, value_iteration_new, htterm]
    · injection h with h
      rw [← h]
      simp [memcpy, hs, hinv s hs hterm]

/-- For any `calc_meu`: the table `value_iteration` returns either holds the reward of
every terminal state, or is the zero table left after a single sweep, in which case no
first-sweep value exceeds the stopping bound. -/
theorem value_iteration_with_terminal (meuK : MeuKernel) (m : MDP) (epsilon gamma : ℚ)
    (U0 U : Nat → ℚ) (fuel : Nat)
    (h : value_iteration_with meuK m epsilon gamma U0 fuel = some U) :
    (∀ s, s < m.numStates → m.terminal s = true → U s = m.rewards s) ∨
    (∀ s, s < m.numStates → U s = 0 ∧
      |value_iteration_new meuK m gamma U s| ≤ (epsilon * (1 - gamma)) / gamma) := by
  cases fuel with
  | zero => simp [value_iteration_with, value_iteration_loop] at h
  | succ fuel =>
    simp only [value_iteration_with, value_iteration_loop] at h
    split at h
    · left
      refine value_iteration_loop_terminal meuK m epsilon gamma fuel _ _ U ?_ h
      intro t ht htterm
      rw [value_iteration_sweep_fst]
      simp [ht, value_iteration_new, htterm]
    · right
      rename_i hstop
      injection h with h
      intro s hs
      have hzero : U s = 0 := by rw [← h]; simp [memcpy, hs]
      refine ⟨hzero, ?_⟩
      have hb := value_iteration_sweep_bound meuK m gamma
        (memcpy m.numStates (bzero m.numStates U0) (fun _ => 0)) (fun _ => 0) s hs
      rw [h] at hstop
      rw [h, hzero, sub_zero] at hb
      exact le_trans hb (not_lt.mp hstop)

/-- With the repository's `calc_meu`, a sweep over a table that already holds every
reward leaves `delta = 0`. -/
theorem value_iteration_sweep_settled (m : MDP) (gamma : ℚ) (utilities util_update : Nat → ℚ)
    (hU : ∀ s, s < m.numStates → utilities s = m.rewards s) :
    (value_iteration_sweep calc_meu m gamma utilities util_update).2 = 0 := by
  rcases value_iteration_sweep_attained calc_meu m gamma utilities util_update with h | h
  · exact h
  · obtain ⟨s, hs, h⟩ := h
    rw [h, value_iteration_new_calc_meu, hU s hs, sub_self, abs_zero]

/-- The stopping bound of `value_iteration` is positive for `0 < gamma < 1` and
`epsilon > 0`. -/
theorem stopping_bound_pos (epsilon gamma : ℚ) (heps : 0 < epsilon) (hg0 : 0 < gamma)
    (hg1 : gamma < 1) : 0 < (epsilon * (1 - gamma)) / gamma :=
  div_pos (mul_pos heps (sub_pos.mpr hg1)) hg0

/-- The repository's `value_iteration` returns within two sweeps. -/
theorem value_iteration_returns (m : MDP) (epsilon gamma : ℚ) (U0 : Nat → ℚ) (fuel : Nat)
    (heps : 0 < epsilon) (hg0 : 0 < gamma) (hg1 : gamma < 1) (hfuel : 2 ≤ fuel) :
    ∃ U, value_iteration m epsilon gamma U0 fuel = some U := by
  obtain ⟨f, rfl⟩ : ∃ f, fuel = f + 2 := ⟨fuel - 2, by omega⟩
  simp only [value_iteration, value_iteration_with, value_iteration_loop]
  split
  · have hzero := value_iteration_sweep_settled m gamma
      (memcpy m.numStates (memcpy m.numStates (bzero m.numStates U0) (fun _ => 0))
        (value_iteration_sweep calc_meu m gamma
          (memcpy m.numStates (bzero m.numStates U0) (fun _ => 0)) (fun _ => 0)).1)
      (value_iteration_sweep calc_meu m gamma
          (memcpy m.numStates (bzero m.numStates U0) (fun _ => 0)) (fun _ => 0)).1
      (by
        intro s hs
        rw [value_iteration_sweep_fst]
        simp [memcpy, hs, value_iteration_new_calc_meu])
    have hpos := stopping_bound_pos epsilon gamma heps hg0 hg1
    rw [hzero, if_neg (not_lt.mpr (le_of_lt hpos))]
    exact ⟨_, rfl⟩
  · exact ⟨_, rfl⟩

/-- C7 as stated fails: on the one-state MDP whose state is terminal with reward 1/1000,
with `gamma = 0.9` and `epsilon = 0.01`, the first sweep already meets the stopping bound
1/900, and `value_iteration` returns the zero table it started from, so `utilities[0]`
is 0 and not the reward. -/
theorem value_iteration_terminal_exact_counterexample :
    ∃ U, value_iteration tinyRewardMDP (1 / 100) (9 / 10) (fun _ => 0) 2 = some U ∧
      tinyRewardMDP.terminal 0 = true ∧ U 0 = 0 ∧ tinyRewardMDP.rewards 0 = 1 / 1000 ∧
      U 0 ≠ tinyRewardMDP.rewards 0 := by
  norm_num [value_iteration, value_iteration_with, value_iteration_loop,
    value_iteration_sweep, value_iteration_body, calc_meu, memcpy, bzero, tinyRewardMDP,
    List.range_succ, Function.update, abs_div]

/-- C7 (amended): for every MDP, every `0 < gamma < 1` and every `epsilon > 0`,
`value_iteration` returns (two sweeps are enough), and for every terminal state `s` the
returned `utilities[s]` is within the stopping bound `epsilon * (1 - gamma) / gamma` of
`rewards[s]`, and equals `rewards[s]` exactly whenever some state has a reward larger in
absolute value than that bound (so that the loop runs a second sweep). -/
theorem value_iteration_terminal_reward (m : MDP) (epsilon gamma : ℚ) (U0 : Nat → ℚ)
    (fuel : Nat) (heps : 0 < epsilon) (hg0 : 0 < gamma) (hg1 : gamma < 1)
    (hfuel : 2 ≤ fuel) :
    ∃ U, value_iteration m epsilon gamma U0 fuel = some U ∧
      ∀ s, s < m.numStates → m.terminal s = true →
        |U s - m.rewards s| ≤ (epsilon * (1 - gamma)) / gamma ∧
        ((∃ t, t < m.numStates ∧ (epsilon * (1 - gamma)) / gamma < |m.rewards t|) →
          U s = m.rewards s) := by
  obtain ⟨U, hU⟩ := value_iteration_returns m epsilon gamma U0 fuel heps hg0 hg1 hfuel
  have hpos := stopping_bound_pos epsilon gamma heps hg0 hg1
  refine ⟨U, hU, ?_⟩
  intro s hs hterm
  rcases value_iteration_with_terminal calc_meu m epsilon gamma U0 U fuel hU with h | h
  · have hexact := h s hs hterm
    refine ⟨?_, fun _ => hexact⟩
    rw [hexact, sub_self, abs_zero]
    exact le_of_lt hpos
  · refine ⟨?_, ?_⟩
    · obtain ⟨hzero, hb⟩ := h s hs
      rw [value_iteration_new_calc_meu] at hb
      rw [hzero, zero_sub, abs_neg]
      exact hb
    · rintro ⟨t, ht, hbig⟩
      have hb := (h t ht).2
      rw [value_iteration_new_calc_meu] at hb
      exact absurd hbig (not_lt.mpr hb)

/-- Witness for C7: the two-state MDP with terminal reward 10, `gamma = 0.9` and
`epsilon = 0.01`; the returned utility of the terminal state 1 is exactly 10. -/
theorem value_iteration_terminal_reward_witness :
    (0 : ℚ) < 1 / 100 ∧ (0 : ℚ) < 9 / 10 ∧ (9 / 10 : ℚ) < 1 ∧ 2 ≤ 2 ∧
    ∃ U, value_iteration twoStateMDP (1 / 100) (9 / 10) (fun _ => 0) 2 = some U ∧
      U 1 = 10 := by
  refine ⟨by norm_num, by norm_num, by norm_num, le_refl 2, ?_⟩
  obtain ⟨U, hU, hprop⟩ := value_iteration_terminal_reward twoStateMDP (1 / 100) (9 / 10)
    (fun _ => 0) 2 (by norm_num) (by norm_num) (by norm_num) (le_refl 2)
  refine ⟨U, hU, ?_⟩
  have h := (hprop 1 (by decide) rfl).2 ⟨1, by decide, by norm_num [twoStateMDP]⟩
  simpa [twoStateMDP] using h

/-- C8 (the code departs from the claim): on the two-state MDP with `gamma = 0.9` and
`epsilon = 0.01` the repository's `value_iteration` returns `utilities[0] = 0` and
`utilities[1] = 10`; `utilities[0]` is 9 away from 9.0, not within `epsilon`. -/
theorem value_iteration_two_state :
    ∃ U, value_iteration twoStateMDP (1 / 100) (9 / 10) (fun _ => 0) 2 = some U ∧
      U 0 = 0 ∧ U 1 = 10 ∧ ¬ (|U 0 - 9| ≤ 1 / 100) := by
  norm_num [value_iteration, value_iteration_with, value_iteration_loop,
    value_iteration_sweep, value_iteration_body, calc_meu, memcpy, bzero, twoStateMDP,
    List.range_succ, Function.update]

/-- The same loop over a `calc_meu` that computes the documented maximum returns
`utilities[0] = 9` and `utilities[1] = 10` on the two-state MDP: the departure in C8
comes from `calc_meu` alone. -/
theorem value_iteration_two_state_documented :
    ∃ U, value_iteration_with calc_meu_documented twoStateMDP (1 / 100) (9 / 10)
        (fun _ => 0) 3 = some U ∧ U 0 = 9 ∧ U 1 = 10 := by
  norm_num [value_iteration_with, value_iteration_loop, value_iteration_sweep,
    value_iteration_body, calc_meu_documented, calc_meu_spec, calc_eu_spec, arg_max_value,
    arg_max_scan, memcpy, bzero, twoStateMDP, List.range_succ, Function.update]

/-! ## Properties of policy_evaluation.c -/

/-- After a sweep of `policy_evaluation`, `util_update` holds the new value of every
state below `numStates`. -/
theorem policy_evaluation_sweep_fst (euK : EuKernel) (policy : Nat → Nat) (m : MDP)
    (gamma : ℚ) (utilities util_update : Nat → ℚ) :
    (policy_evaluation_sweep euK policy m gamma utilities util_update).1 =
      fun s => if s < m.numStates then policy_evaluation_new euK m gamma utilities s
        else util_update s := by
  rw [policy_evaluation_sweep, policy_evaluation_body_eq, bellman_fold_fst]

/-- After a sweep of `policy_evaluation`, `delta` is 0 or the change of some state. -/
theorem policy_evaluation_sweep_attained (euK : EuKernel) (policy : Nat → Nat) (m : MDP)
    (gamma : ℚ) (utilities util_update : Nat → ℚ) :
    (policy_evaluation_sweep euK policy m gamma utilities util_update).2 = 0 ∨
      ∃ s, s < m.numStates ∧
        (policy_evaluation_sweep euK policy m gamma utilities util_update).2 =
          |policy_evaluation_new euK m gamma utilities s - utilities s| := by
  rw [policy_evaluation_sweep, policy_evaluation_body_eq]
  exact (bellman_fold_snd _ utilities m.numStates (util_update, 0)).2.2

/-- With the repository's `calc_eu` the new value of every state is its reward. -/
theorem policy_evaluation_new_calc_eu (m : MDP) (gamma : ℚ) (utilities : Nat → ℚ)
    (s : Nat) : policy_evaluation_new calc_eu m gamma utilities s = m.rewards s := by
  unfold policy_evaluation_new calc_eu
  by_cases h : m.terminal s = true <;> simp [h]

/-- With the repository's `calc_eu`, a sweep writes the rewards, and the copy that
follows it leaves the rewards in `utilities`. -/
theorem policy_evaluation_sweep_copy (policy : Nat → Nat) (m : MDP) (gamma : ℚ)
    (utilities util_update : Nat → ℚ) :
    memcpy m.numStates utilities
      (policy_evaluation_sweep calc_eu policy m gamma utilities util_update).1 =
      memcpy m.numStates utilities m.rewards := by
  funext s
  rw [policy_evaluation_sweep_fst]
  by_cases hs : s < m.numStates <;> simp [memcpy, hs, policy_evaluation_new_calc_eu]

/-- With the repository's `calc_eu`, a sweep over a table that already holds every reward
leaves `delta = 0`. -/
theorem policy_evaluation_sweep_settled (policy : Nat → Nat) (m : MDP) (gamma : ℚ)
    (utilities util_update : Nat → ℚ)
    (hU : ∀ s, s < m.numStates → utilities s = m.rewards s) :
    (policy_evaluation_sweep calc_eu policy m gamma utilities util_update).2 = 0 := by
  rcases policy_evaluation_sweep_attained calc_eu policy m gamma utilities util_update
    with h | h
  · exact h
  · obtain ⟨s, hs, h⟩ := h
    rw [h, policy_evaluation_new_calc_eu, hU s hs, sub_self, abs_zero]

/-- The repository's `policy_evaluation` returns within two sweeps, and the table it
returns holds the reward of every state below `numStates`. -/
theorem policy_evaluation_result (policy : Nat → Nat) (m : MDP) (epsilon gamma : ℚ)
    (U0 : Nat → ℚ) (fuel : Nat) (heps : 0 ≤ epsilon) (hfuel : 2 ≤ fuel) :
    policy_evaluation policy m epsilon gamma U0 fuel =
      some (memcpy m.numStates U0 m.rewards) := by
  obtain ⟨f, rfl⟩ : ∃ f, fuel = f + 2 := ⟨fuel - 2, by omega⟩
  simp only [policy_evaluation, policy_evaluation_with, policy_evaluation_loop]
  rw [policy_evaluation_sweep_copy]
  split
  · have hzero := policy_evaluation_sweep_settled policy m gamma
      (memcpy m.numStates U0 m.rewards)
      (policy_evaluation_sweep calc_eu policy m gamma U0 (fun _ => 0)).1
      (by intro s hs; simp [memcpy, hs])
    rw [hzero, if_neg (not_lt.mpr heps), policy_evaluation_sweep_copy]
    congr 1
    funext s
    by_cases hs : s < m.numStates <;> simp [memcpy, hs]
  · rfl

/-- C9 (the code departs from the claim): in a sweep of `policy_evaluation` the new
utility of a terminal state is its reward, and the new utility of a non-terminal state
`s` is `rewards[s] + gamma * calc_eu (mdp, s, U_prev, 0)`: the action is the constant 0,
not `policy[s]`.  On the two-action MDP with `policy[0] = 1`, `gamma = 0.9` and
`U_prev = {0, 10}`, the value the claim gives with the documented expected utility is
`0 + 0.9 * 10 = 9`; the sweep stores 0, both over the documented expected utility
(action 0 stays in state 0) and over the repository's `calc_eu`. -/
theorem policy_evaluation_sweep_action_zero :
    (∀ (euK : EuKernel) (policy : Nat → Nat) (m : MDP) (gamma : ℚ)
        (U util_update : Nat → ℚ) (s : Nat), s < m.numStates →
      (policy_evaluation_sweep euK policy m gamma U util_update).1 s =
        if m.terminal s then m.rewards s else m.rewards s + gamma * euK m s U 0) ∧
    twoActionMDP.rewards 0 +
      9 / 10 * calc_eu_spec twoActionMDP 0 tableZeroTen (policyAllOne 0) = 9 ∧
    (policy_evaluation_sweep calc_eu_spec policyAllOne twoActionMDP (9 / 10) tableZeroTen
      (fun _ => 0)).1 0 = 0 ∧
    (policy_evaluation_sweep calc_eu policyAllOne twoActionMDP (9 / 10) tableZeroTen
      (fun _ => 0)).1 0 = 0 := by
  refine ⟨?_, ?_, ?_, ?_⟩
  · intro euK policy m gamma U util_update s hs
    rw [policy_evaluation_sweep_fst]
    simp [hs, policy_evaluation_new]
  · norm_num [calc_eu_spec, twoActionMDP, tableZeroTen, policyAllOne, List.range_succ]
  · rw [policy_evaluation_sweep_fst]
    norm_num [policy_evaluation_new, calc_eu_spec, twoActionMDP, tableZeroTen,
      List.range_succ]
  · rw [policy_evaluation_sweep_fst]
    norm_num [policy_evaluation_new, calc_eu, twoActionMDP]

/-- C10: `policy_evaluation` is idempotent up to `epsilon`.  For every MDP, policy,
`epsilon > 0`, `0 < gamma < 1` and initial table `U0`, `policy_evaluation` returns a
table `U1` from `U0` and a table `U2` when run again from `U1` (two sweeps are enough
each time), and `|U2[s] - U1[s]| ≤ epsilon` for every state `s`. -/
theorem policy_evaluation_idempotent (policy : Nat → Nat) (m : MDP) (epsilon gamma : ℚ)
    (U0 : Nat → ℚ) (fuel1 fuel2 : Nat) (heps : 0 < epsilon) (hg0 : 0 < gamma)
    (hg1 : gamma < 1) (hfuel1 : 2 ≤ fuel1) (hfuel2 : 2 ≤ fuel2) :
    ∃ U1 U2, policy_evaluation policy m epsilon gamma U0 fuel1 = some U1 ∧
      policy_evaluation policy m epsilon gamma U1 fuel2 = some U2 ∧
      ∀ s, |U2 s - U1 s| ≤ epsilon := by
  refine ⟨memcpy m.numStates U0 m.rewards,
    memcpy m.numStates (memcpy m.numStates U0 m.rewards) m.rewards,
    policy_evaluation_result policy m epsilon gamma U0 fuel1 (le_of_lt heps) hfuel1,
    policy_evaluation_result policy m epsilon gamma _ fuel2 (le_of_lt heps) hfuel2, ?_⟩
  intro s
  have hsame : memcpy m.numStates (memcpy m.numStates U0 m.rewards) m.rewards s =
      memcpy m.numStates U0 m.rewards s := by
    by_cases hs : s < m.numStates <;> simp [memcpy, hs]
  rw [hsame, sub_self, abs_zero]
  exact le_of_lt heps

/-- Witness for C10: the two-state MDP under the policy that chooses action 0, with
`gamma = 0.9`, `epsilon = 0.01` and the zero table as `U0`. -/
theorem policy_evaluation_idempotent_witness :
    (0 : ℚ) < 1 / 100 ∧ (0 : ℚ) < 9 / 10 ∧ (9 / 10 : ℚ) < 1 ∧ 2 ≤ 2 ∧ 2 ≤ 2 ∧
    ∃ U1 U2, policy_evaluation (fun _ => 0) twoStateMDP (1 / 100) (9 / 10) (fun _ => 0) 2 =
        some U1 ∧
      policy_evaluation (fun _ => 0) twoStateMDP (1 / 100) (9 / 10) U1 2 = some U2 ∧
      ∀ s, |U2 s - U1 s| ≤ 1 / 100 :=
  ⟨by norm_num, by norm_num, by norm_num, le_refl 2, le_refl 2,
    policy_evaluation_idempotent (fun _ => 0) twoStateMDP (1 / 100) (9 / 10) (fun _ => 0)
      2 2 (by norm_num) (by norm_num) (by norm_num) (le_refl 2) (le_refl 2)⟩

/-! ## Properties of policy_iteration.c -/

/-- With the repository's `calc_eu` and `calc_meu` the improvement step compares
`meu = 0` with `eu = 0` and changes nothing. -/
theorem policy_iteration_body_stub (m : MDP) (utilities : Nat → ℚ)
    (acc : (Nat → Nat) × Bool) (state : Nat) :
    policy_iteration_body calc_eu calc_meu m utilities acc state = acc := by
  simp [policy_iteration_body, calc_eu, calc_meu]

/-- With the repository's `calc_eu` and `calc_meu` an improvement pass returns the policy
it was given and `changed = false`. -/
theorem policy_iteration_sweep_stub (m : MDP) (utilities : Nat → ℚ) (policy : Nat → Nat) :
    policy_iteration_sweep calc_eu calc_meu m utilities policy = (policy, false) := by
  unfold policy_iteration_sweep
  induction m.numStates with
  | zero => rfl
  | succ n ih =>
    rw [List.range_succ, List.foldl_append, ih]
    simp [policy_iteration_body_stub]

/-- The repository's `policy_iteration` returns after one round, with the policy it was
given. -/
theorem policy_iteration_result (m : MDP) (epsilon gamma : ℚ) (policy : Nat → Nat)
    (evalFuel fuel : Nat) (heps : 0 ≤ epsilon) (hevalFuel : 2 ≤ evalFuel)
    (hfuel : 1 ≤ fuel) :
    policy_iteration m epsilon gamma policy evalFuel fuel = some policy := by
  obtain ⟨f, rfl⟩ : ∃ f, fuel = f + 1 := ⟨fuel - 1, by omega⟩
  have hpe := policy_evaluation_result policy m epsilon gamma
    (bzero m.numStates (fun _ => 0)) evalFuel heps hevalFuel
  unfold policy_evaluation at hpe
  simp only [policy_iteration, policy_iteration_with, policy_iteration_loop, hpe,
    policy_iteration_sweep_stub]
  simp

/-- C11 (the code departs from the claim): on the two-action MDP (valid transition
distributions) with the valid initial policy `{0, 0}`, `gamma = 0.9` and
`epsilon = 0.01`, `policy_iteration` returns the policy unchanged.  The table `{0, 10}`
is the utility of following that policy, state 0 has the two actions 0 and 1, and the
expected utility of the returned action 0 is 0 while that of action 1 is 10: the returned
policy is not optimal in state 0. -/
theorem policy_iteration_not_optimal :
    policy_iteration twoActionMDP (1 / 100) (9 / 10) (fun _ => 0) 2 1 = some (fun _ => 0) ∧
    (∀ s, s < twoActionMDP.numStates →
      tableZeroTen s = if twoActionMDP.terminal s then twoActionMDP.rewards s
        else twoActionMDP.rewards s +
          9 / 10 * calc_eu_spec twoActionMDP s tableZeroTen ((fun _ => 0) s)) ∧
    twoActionMDP.numAvailableActions 0 = 2 ∧
    twoActionMDP.actions 0 0 = 0 ∧ twoActionMDP.actions 0 1 = 1 ∧
    calc_eu_spec twoActionMDP 0 tableZeroTen 0 = 0 ∧
    calc_eu_spec twoActionMDP 0 tableZeroTen 1 = 10 := by
  refine ⟨policy_iteration_result twoActionMDP (1 / 100) (9 / 10) (fun _ => 0) 2 1
    (by norm_num) (le_refl 2) (le_refl 1), ?_, rfl, rfl, rfl, ?_, ?_⟩
  · intro s hs
    have h2 : s < 2 := hs
    interval_cases s <;>
      norm_num [calc_eu_spec, twoActionMDP, tableZeroTen, List.range_succ]
  · norm_num [calc_eu_spec, twoActionMDP, tableZeroTen, List.range_succ]
  · norm_num [calc_eu_spec, twoActionMDP, tableZeroTen, List.range_succ]

/-- C12 (the code departs from the claim): the improvement step of `policy_iteration`
compares `meu` with the expected utility of action 0, not of `policy[state]`, and stores
`meu` itself, not the maximising action.  With the repository's `calc_eu` and `calc_meu`
no entry is ever changed: on the two-action MDP with the table `{0, 10}` and the policy
`{0, 0}`, whose action 0 is not optimal in state 0, the pass leaves `policy[0] = 0` and
`changed = false`.  Over the documented `calc_eu` and `calc_meu`, with the policy
`{1, 1}`, whose action 1 is optimal in state 0, the pass sets `changed` and stores
`policy[0] = 10`, which is not an action of the MDP. -/
theorem policy_iteration_sweep_defects :
    (∀ (m : MDP) (utilities : Nat → ℚ) (policy : Nat → Nat),
      policy_iteration_sweep calc_eu calc_meu m utilities policy = (policy, false)) ∧
    (∀ (euK : EuKernel) (meuK : MeuKernel) (m : MDP) (utilities : Nat → ℚ)
        (acc : (Nat → Nat) × Bool) (state : Nat),
      policy_iteration_body euK meuK m utilities acc state =
        if (meuK m state utilities 0 0).1 > euK m state utilities 0 then
          (Function.update acc.1 state (double_to_unsigned (meuK m state utilities 0 0).1),
            true)
        else acc) ∧
    calc_eu_spec twoActionMDP 0 tableZeroTen 0 < calc_eu_spec twoActionMDP 0 tableZeroTen 1 ∧
    (policy_iteration_sweep calc_eu calc_meu twoActionMDP tableZeroTen (fun _ => 0)).1 0
      = 0 ∧
    calc_meu_spec calc_eu_spec twoActionMDP 0 tableZeroTen = some (10, 1) ∧
    (policy_iteration_sweep calc_eu_spec calc_meu_documented twoActionMDP tableZeroTen
      policyAllOne).1 0 = 10 ∧
    (policy_iteration_sweep calc_eu_spec calc_meu_documented twoActionMDP tableZeroTen
      policyAllOne).2 = true ∧
    ¬ (10 < twoActionMDP.numActions) := by
  refine ⟨policy_iteration_sweep_stub, fun _ _ _ _ _ _ => rfl, ?_, ?_, ?_, ?_, ?_, ?_⟩
  · norm_num [calc_eu_spec, twoActionMDP, tableZeroTen, List.range_succ]
  · rw [policy_iteration_sweep_stub]
  · norm_num [calc_meu_spec, calc_eu_spec, arg_max_value, arg_max_scan, twoActionMDP,
      tableZeroTen, List.range_succ]
  · norm_num [policy_iteration_sweep, policy_iteration_body, calc_meu_documented,
      calc_meu_spec, calc_eu_spec, arg_max_value, arg_max_scan, twoActionMDP, tableZeroTen,
      policyAllOne, double_to_unsigned, List.range_succ, Function.update]
    rfl
  · norm_num [policy_iteration_sweep, policy_iteration_body, calc_meu_documented,
      calc_meu_spec, calc_eu_spec, arg_max_value, arg_max_scan, twoActionMDP, tableZeroTen,
      policyAllOne, double_to_unsigned, List.range_succ, Function.update]
  · norm_num [twoActionMDP]

/-- Loop invariant of `randomize_policy`: after the states below `n`, every such state
with an available action holds one of its actions, and every other entry of `policy` is as
it was. -/
theorem randomize_policy_fold (m : MDP) (rand : Nat → Nat) (n : Nat)
    (acc : (Nat → Nat) × Nat) :
    (∀ s, s < n → 0 < m.numAvailableActions s →
      ∃ i, i < m.numAvailableActions s ∧
        ((List.range n).foldl (randomize_policy_body m rand) acc).1 s = m.actions s i) ∧
    (∀ s, n ≤ s ∨ m.numAvailableActions s = 0 →
      ((List.range n).foldl (randomize_policy_body m rand) acc).1 s = acc.1 s) := by
  induction n with
  | zero =>
    refine ⟨fun s hs => absurd hs (Nat.not_lt_zero s), fun s _ => rfl⟩
  | succ n ih =>
    obtain ⟨ih1, ih2⟩ := ih
    rw [List.range_succ, List.foldl_append, List.foldl_cons, List.foldl_nil]
    generalize (List.range n).foldl (randomize_policy_body m rand) acc = r at ih1 ih2
    by_cases hav : m.numAvailableActions n > 0
    · have hbody : randomize_policy_body m rand r n =
          (Function.update r.1 n (m.actions n (rand r.2 % m.numAvailableActions n)),
            r.2 + 1) := by
        simp [randomize_policy_body, hav]
      rw [hbody]
      refine ⟨?_, ?_⟩
      · intro s hs hpos
        by_cases hsn : s = n
        · subst hsn
          exact ⟨rand r.2 % m.numAvailableActions s, Nat.mod_lt _ hpos, by simp⟩
        · obtain ⟨i, hi, hval⟩ := ih1 s (by omega) hpos
          exact ⟨i, hi, by simp [Function.update_noteq hsn, hval]⟩
      · intro s hs
        have hsn : s ≠ n := by
          rcases hs with h | h
          · omega
          · intro heq
            rw [heq] at h
            omega
        have hs' : n ≤ s ∨ m.numAvailableActions s = 0 := by
          rcases hs with h | h
          · exact Or.inl (by omega)
          · exact Or.inr h
        simp [Function.update_noteq hsn, ih2 s hs']
    · have hbody : randomize_policy_body m rand r n = r := by
        simp [randomize_policy_body, hav]
      rw [hbody]
      refine ⟨?_, ?_⟩
      · intro s hs hpos
        have hsn : s ≠ n := by
          intro heq
          rw [heq] at hpos
          exact hav hpos
        exact ih1 s (by omega) hpos
      · intro s hs
        by_cases hsn : s = n
        · exact ih2 s (Or.inr (by rw [hsn]; omega))
        · have hs' : n ≤ s ∨ m.numAvailableActions s = 0 := by
            rcases hs with h | h
            · exact Or.inl (by omega)
            · exact Or.inr h
          exact ih2 s hs'

/-- C13: for every MDP and every sequence of values returned by the random source, after
`randomize_policy` each state `s` below `numStates` with `numAvailableActions[s] > 0` has
`policy[s]` equal to an entry of `actions[s]` (hence below `numActions` when the entries
of `actions[s]` are), and `policy[s]` is unchanged for every state with no available
action. -/
theorem randomize_policy_member (m : MDP) (rand : Nat → Nat) (policy : Nat → Nat)
    (s : Nat) (hs : s < m.numStates) :
    (0 < m.numAvailableActions s →
      ∃ i, i < m.numAvailableActions s ∧ randomize_policy m rand policy s = m.actions s i) ∧
    (0 < m.numAvailableActions s →
      (∀ i, i < m.numAvailableActions s → m.actions s i < m.numActions) →
      randomize_policy m rand policy s < m.numActions) ∧
    (m.numAvailableActions s = 0 → randomize_policy m rand policy s = policy s) := by
  obtain ⟨h1, h2⟩ := randomize_policy_fold m rand m.numStates (policy, 0)
  refine ⟨fun hpos => h1 s hs hpos, ?_, fun hzero => h2 s (Or.inr hzero)⟩
  intro hpos hvalid
  obtain ⟨i, hi, hval⟩ := h1 s hs hpos
  unfold randomize_policy
  rw [hval]
  exact hvalid i hi

/-- Witness for C13: state 0 of the two-action MDP, a random source that always returns
41 and the initial policy `{7, 7}`. -/
theorem randomize_policy_member_witness :
    0 < twoActionMDP.numStates ∧
    (0 < twoActionMDP.numAvailableActions 0 →
      ∃ i, i < twoActionMDP.numAvailableActions 0 ∧
        randomize_policy twoActionMDP (fun _ => 41) (fun _ => 7) 0 =
          twoActionMDP.actions 0 i) ∧
    (0 < twoActionMDP.numAvailableActions 0 →
      (∀ i, i < twoActionMDP.numAvailableActions 0 →
        twoActionMDP.actions 0 i < twoActionMDP.numActions) →
      randomize_policy twoActionMDP (fun _ => 41) (fun _ => 7) 0 <
        twoActionMDP.numActions) ∧
    (twoActionMDP.numAvailableActions 0 = 0 →
      randomize_policy twoActionMDP (fun _ => 41) (fun _ => 7) 0 = (fun _ => 7) 0) :=
  ⟨by decide, randomize_policy_member twoActionMDP (fun _ => 41) (fun _ => 7) 0 (by decide)⟩

/-- The sample run of `randomize_policy`: 41 mod 2 = 1, so state 0 gets its second action,
and the terminal state 1, which has no action, keeps its entry. -/
theorem randomize_policy_sample :
    randomize_policy twoActionMDP (fun _ => 41) (fun _ => 7) 0 = 1 ∧
    randomize_policy twoActionMDP (fun _ => 41) (fun _ => 7) 1 = 7 := by
  constructor <;>
    simp [randomize_policy, randomize_policy_body, twoActionMDP, List.range_succ,
      Function.update]

/-! ## Properties of environment.c: sampling the next state -/

/-- For `1 ≤ numStates < 2^32` the unsigned `numStates - 1` is the ordinary one. -/
theorem unsigned_pred_eq (n : Nat) (h1 : 1 ≤ n) (h2 : n < 4294967296) :
    unsigned_pred n = n - 1 := by
  unfold unsigned_pred
  omega

/-- The sum below `t + 1` is the sum below `t` plus the entry at `t`. -/
theorem mass_below_succ (m : MDP) (s a t : Nat) :
    mass_below m s a (t + 1) = mass_below m s a t + m.transitionProb t s a := by
  simp [mass_below, List.range_succ]

/-- Loop invariant of the sampling scan.  Entered at a position `j` below the bound
`numStates - 1` with `cumProb` the sum below `j`, and no cumulative sum before `j`
exceeding the draw, the scan returns a position `t` between `j` and the bound such that
no cumulative sum before `t` exceeds the draw and, when `t` is below the bound, the
cumulative sum at `t` does. -/
theorem sample_scan_spec (m : MDP) (s a : Nat) (r : ℚ) :
    ∀ (fuel j : Nat), j < unsigned_pred m.numStates →
      unsigned_pred m.numStates - j ≤ fuel →
      (∀ i, i < j → ¬ cumulative_prob m s a i > r) →
      ∃ t, sample_scan m s a r fuel (mass_below m s a j) j = some t ∧ j ≤ t ∧
        t ≤ unsigned_pred m.numStates ∧
        (∀ i, i < t → ¬ cumulative_prob m s a i > r) ∧
        (t < unsigned_pred m.numStates → cumulative_prob m s a t > r) := by
  intro fuel
  induction fuel with
  | zero =>
    intro j hj hfuel _
    omega
  | succ fuel ih =>
    intro j hj hfuel hbefore
    by_cases hc : mass_below m s a j + m.transitionProb j s a > r
    · refine ⟨j, ?_, le_refl j, le_of_lt hj, hbefore, fun _ => ?_⟩
      · rw [sample_scan, if_pos hc]
      · rw [cumulative_prob, mass_below_succ]
        exact hc
    · have hbefore' : ∀ i, i < j + 1 → ¬ cumulative_prob m s a i > r := by
        intro i hi
        rcases Nat.lt_succ_iff_lt_or_eq.mp hi with h | h
        · exact hbefore i h
        · rw [h, cumulative_prob, mass_below_succ]
          exact hc
      by_cases hnext : j + 1 < unsigned_pred m.numStates
      · obtain ⟨t, ht, hjt, htB, hmin, hex⟩ := ih (j + 1) hnext (by omega) hbefore'
        refine ⟨t, ?_, by omega, htB, hmin, hex⟩
        rw [sample_scan, if_neg hc, if_pos hnext, ← mass_below_succ]
        exact ht
      · refine ⟨j + 1, ?_, Nat.le_succ j, by omega, hbefore', fun h => absurd h hnext⟩
        rw [sample_scan, if_neg hc, if_neg hnext]

/-- With at least two states, the sampled next state is the smallest index whose
cumulative sum exceeds the draw, and the last index when no cumulative sum does. -/
theorem sample_next_state_spec (m : MDP) (s a : Nat) (r : ℚ) (h2 : 2 ≤ m.numStates)
    (hmax : m.numStates < 4294967296) :
    ∃ t, sample_next_state m s a r = some t ∧ t < m.numStates ∧
      ((cumulative_prob m s a t > r ∧ ∀ i, i < t → ¬ cumulative_prob m s a i > r) ∨
        (t = m.numStates - 1 ∧ ∀ i, i < m.numStates → ¬ cumulative_prob m s a i > r)) := by
  have hB := unsigned_pred_eq m.numStates (by omega) hmax
  obtain ⟨t, ht, _, htB, hmin, hex⟩ :=
    sample_scan_spec m s a r m.numStates 0 (by omega) (by omega)
      (fun i hi => absurd hi (Nat.not_lt_zero i))
  have h0 : mass_below m s a 0 = 0 := by simp [mass_below]
  rw [h0] at ht
  refine ⟨t, ht, by omega, ?_⟩
  by_cases hlast : t < unsigned_pred m.numStates
  · exact Or.inl ⟨hex hlast, hmin⟩
  · have hteq : t = m.numStates - 1 := by omega
    by_cases hc : cumulative_prob m s a t > r
    · exact Or.inl ⟨hc, hmin⟩
    · refine Or.inr ⟨hteq, ?_⟩
      intro i hi
      rcases Nat.lt_or_ge i t with h | h
      · exact hmin i h
      · have : i = t := by omega
        rw [this]
        exact hc

/-- C15 (the code departs from the claim): with at least two states the sampled next
state is the smallest index `t` whose cumulative sum
`transitionProb[0][s][a] + ... + transitionProb[t][s][a]` exceeds the draw, and the last
index `numStates - 1` when no cumulative sum does.  With a single state the scan
increments `nextState` before it tests the bound: on the one-state MDP whose state leads
back to itself with probability 1, for the draw 1 no cumulative sum exceeds the draw and
the next state is 1, which is `numStates` and not the last index 0. -/
theorem sample_next_state_single_state :
    (∀ (m : MDP) (s a : Nat) (r : ℚ), 2 ≤ m.numStates → m.numStates < 4294967296 →
      ∃ t, sample_next_state m s a r = some t ∧ t < m.numStates ∧
        ((cumulative_prob m s a t > r ∧ ∀ i, i < t → ¬ cumulative_prob m s a i > r) ∨
          (t = m.numStates - 1 ∧
            ∀ i, i < m.numStates → ¬ cumulative_prob m s a i > r))) ∧
    selfLoopMDP.numStates = 1 ∧ selfLoopMDP.terminal 0 = false ∧
    (∀ i, i < selfLoopMDP.numStates → ¬ cumulative_prob selfLoopMDP 0 0 i > 1) ∧
    sample_next_state selfLoopMDP 0 0 1 = some 1 := by
  refine ⟨sample_next_state_spec, rfl, rfl, ?_, ?_⟩
  · intro i hi
    have h1 : i < 1 := hi
    interval_cases i
    norm_num [cumulative_prob, mass_below, selfLoopMDP, List.range_succ]
  · norm_num [sample_next_state, sample_scan, selfLoopMDP, unsigned_pred]

/-- When all the mass of `(s, a)` sits on the next state `t`, the sum below `j` is 1 when
`j` is past `t` and 0 otherwise. -/
theorem mass_below_point (m : MDP) (s a t : Nat) (hone : m.transitionProb t s a = 1)
    (hzero : ∀ i, i ≠ t → m.transitionProb i s a = 0) (j : Nat) :
    mass_below m s a j = if t < j then 1 else 0 := by
  induction j with
  | zero => simp [mass_below]
  | succ j ih =>
    rw [mass_below_succ, ih]
    rcases Nat.lt_trichotomy t j with h | h | h
    · have hne : j ≠ t := by omega
      rw [hzero j hne, if_pos h, if_pos (by omega), add_zero]
    · rw [← h, hone, if_neg (Nat.lt_irrefl t), if_pos (Nat.lt_succ_self t), zero_add]
    · have hne : j ≠ t := by omega
      rw [hzero j hne, if_neg (by omega), if_neg (by omega), add_zero]

/-- When all the mass of `(s, a)` sits on the next state `t`, every draw `r` with
`0 ≤ r < 1` selects `t`. -/
theorem sample_next_state_point (m : MDP) (s a t : Nat) (r : ℚ) (h1 : 1 ≤ m.numStates)
    (hmax : m.numStates < 4294967296) (ht : t < m.numStates)
    (hone : m.transitionProb t s a = 1) (hzero : ∀ i, i ≠ t → m.transitionProb i s a = 0)
    (hr0 : 0 ≤ r) (hr1 : r < 1) : sample_next_state m s a r = some t := by
  have hcum : ∀ i, cumulative_prob m s a i = if t ≤ i then 1 else 0 := by
    intro i
    rw [cumulative_prob, mass_below_point m s a t hone hzero]
    by_cases h : t ≤ i
    · rw [if_pos (by omega), if_pos h]
    · rw [if_neg (by omega), if_neg h]
  rcases Nat.lt_or_ge m.numStates 2 with hsmall | hbig
  · have hn : m.numStates = 1 := by omega
    have ht0 : t = 0 := by omega
    subst ht0
    have hgt : (0 : ℚ) + m.transitionProb 0 s a > r := by
      rw [hone, zero_add]
      exact hr1
    rw [sample_next_state, hn, sample_scan, if_pos hgt]
  · obtain ⟨t', ht', hlt', hcase⟩ := sample_next_state_spec m s a r hbig hmax
    rw [ht']
    congr 1
    rcases hcase with ⟨hex, hmin⟩ | ⟨hlast, hnone⟩
    · rw [hcum] at hex
      have hle : t ≤ t' := by
        by_contra hcon
        rw [if_neg hcon] at hex
        exact absurd hex (not_lt.mpr hr0)
      rcases Nat.lt_or_ge t t' with hlt | hge
      · exact absurd (by rw [hcum, if_pos (le_refl t)]; exact hr1) (hmin t hlt)
      · omega
    · exact absurd (by rw [hcum, if_pos (le_refl t)]; exact hr1) (hnone t ht)

/-- C16 (the code departs from the claim): when all the mass of `(s, a)` sits on the next
state `t`, every draw `k / RAND_MAX` with `k < RAND_MAX` selects `t`.  The draw
`RAND_MAX / RAND_MAX = 1` does not: the scan tests `cumProb > randNum`, `1 > 1` fails,
and the scan runs on to the last state.  On the three-state chain, from state 0 under
action 0, whose only successor is state 1, the draw 1 selects state 2. -/
theorem sample_next_state_draw_one :
    (∀ (m : MDP) (s a t RAND_MAX k : Nat), 1 ≤ m.numStates → m.numStates < 4294967296 →
      t < m.numStates → m.transitionProb t s a = 1 →
      (∀ i, i ≠ t → m.transitionProb i s a = 0) → k < RAND_MAX →
      sample_next_state m s a ((k : ℚ) / (RAND_MAX : ℚ)) = some t) ∧
    chainMDP.terminal 0 = false ∧ chainMDP.transitionProb 1 0 0 = 1 ∧
    (∀ i, i ≠ 1 → chainMDP.transitionProb i 0 0 = 0) ∧
    sample_next_state chainMDP 0 0 ((glibc_RAND_MAX : ℚ) / (glibc_RAND_MAX : ℚ)) = some 2 := by
  refine ⟨?_, rfl, ?_, ?_, ?_⟩
  · intro m s a t RAND_MAX k h1 hmax ht hone hzero hk
    have hpos : (0 : ℚ) < (RAND_MAX : ℚ) := by
      exact_mod_cast (by omega : 0 < RAND_MAX)
    have hklt : (k : ℚ) < (RAND_MAX : ℚ) := by exact_mod_cast hk
    exact sample_next_state_point m s a t _ h1 hmax ht hone hzero
      (div_nonneg (Nat.cast_nonneg k) (le_of_lt hpos)) ((div_lt_one hpos).mpr hklt)
  · simp [chainMDP]
  · intro i hi
    simp [chainMDP, hi]
  · norm_num [sample_next_state, sample_scan, chainMDP, unsigned_pred, glibc_RAND_MAX]

/-! ## Properties of environment.c: one trial -/

/-- Loop invariant of `environment_run_trial`, for any agent: a run of the loop that
finishes appends to the record of calls a sequence that starts with the current state,
carries the true reward with every state, ends with a terminal state and holds only
non-terminal states before it; it draws one random number per non-terminal state. -/
theorem environment_run_trial_loop_spec {α : Type}
    (agentFn : α → Nat → ℚ → Option (Nat × α)) (m : MDP) (RAND_MAX : Nat)
    (random : Nat → Nat) :
    ∀ (fuel state : Nat) (agent : α) (draws : Nat) (calls : List (Nat × ℚ))
      (out : TrialOutcome α),
      environment_run_trial_loop agentFn m RAND_MAX random fuel state agent draws calls =
        some out →
      ∃ (mid : List (Nat × ℚ)) (last : Nat × ℚ),
        out.calls = calls ++ mid ++ [last] ∧
        (mid ++ [last]).head? = some (state, m.rewards state) ∧
        (∀ c, c ∈ mid ++ [last] → c.2 = m.rewards c.1) ∧
        m.terminal last.1 = true ∧
        (∀ c, c ∈ mid → m.terminal c.1 = false) ∧
        out.draws = draws + mid.length := by
  intro fuel
  induction fuel with
  | zero =>
    intro state agent draws calls out h
    simp [environment_run_trial_loop] at h
  | succ fuel ih =>
    intro state agent draws calls out h
    rw [environment_run_trial_loop] at h
    cases hag : agentFn agent state (m.rewards state) with
    | none => simp [hag] at h
    | some res =>
      obtain ⟨action, agent'⟩ := res
      simp only [hag] at h
      by_cases hterm : m.terminal state = true
      · simp only [hterm, if_true] at h
        injection h with h
        refine ⟨[], (state, m.rewards state), ?_, ?_, ?_, hterm, ?_, ?_⟩
        · rw [← h]; simp
        · simp
        · intro c hc
          simp at hc
          rw [hc]
        · intro c hc
          simp at hc
        · rw [← h]; simp
      · simp only [hterm] at h
        cases hsample : sample_next_state m state action
            ((random draws : ℚ) / (RAND_MAX : ℚ)) with
        | none => simp [hsample] at h
        | some nextState =>
          simp only [hsample] at h
          obtain ⟨mid, last, hcalls, _, hrew, hlast, hmid, hdraws⟩ :=
            ih nextState agent' (draws + 1) (calls ++ [(state, m.rewards state)]) out h
          refine ⟨(state, m.rewards state) :: mid, last, ?_, ?_, ?_, hlast, ?_, ?_⟩
          · rw [hcalls]; simp
          · simp
          · intro c hc
            simp only [List.cons_append, List.mem_cons] at hc
            rcases hc with hc | hc
            · rw [hc]
            · exact hrew c hc
          · intro c hc
            simp only [List.mem_cons] at hc
            rcases hc with hc | hc
            · rw [hc]
              simpa using hterm
            · exact hmid c hc
          · rw [hdraws]
            simp only [List.length_cons]
            omega

/-- C17: for every trial of `environment_run_trial` that finishes, against any agent, the
sequence of `(state, reward)` pairs passed to `rl_agent_action` begins with the start
state, every reward passed is the true `rewards[state]`, the last state passed is
terminal, every earlier state passed is non-terminal, and exactly one random number is
drawn per earlier state (none after the call on the terminal state). -/
theorem environment_run_trial_calls {α : Type}
    (agentFn : α → Nat → ℚ → Option (Nat × α)) (m : MDP) (RAND_MAX : Nat)
    (random : Nat → Nat) (fuel : Nat) (agent : α) (draws : Nat) (out : TrialOutcome α)
    (h : environment_run_trial agentFn m RAND_MAX random fuel agent draws = some out) :
    ∃ (init : List (Nat × ℚ)) (last : Nat × ℚ),
      out.calls = init ++ [last] ∧
      out.calls.head? = some (m.start, m.rewards m.start) ∧
      (∀ c, c ∈ out.calls → c.2 = m.rewards c.1) ∧
      m.terminal last.1 = true ∧
      (∀ c, c ∈ init → m.terminal c.1 = false) ∧
      out.draws = draws + init.length := by
  obtain ⟨mid, last, hcalls, hhead, hrew, hlast, hmid, hdraws⟩ :=
    environment_run_trial_loop_spec agentFn m RAND_MAX random fuel m.start agent draws []
      out h
  rw [List.nil_append] at hcalls
  refine ⟨mid, last, hcalls, ?_, ?_, hlast, hmid, hdraws⟩
  · rw [hcalls]; exact hhead
  · rw [hcalls]; exact hrew

/-- The sample trial: on the two-state MDP the constant agent is called on state 0 with
reward 0 and on state 1 with reward 10, and one random number is drawn. -/
theorem environment_run_trial_sample :
    environment_run_trial constant_agent twoStateMDP glibc_RAND_MAX (fun _ => 0) 2 () 0 =
      some { agent := (), draws := 1, calls := [(0, 0), (1, 10)] } := by
  norm_num [environment_run_trial, environment_run_trial_loop, constant_agent,
    sample_next_state, sample_scan, twoStateMDP, unsigned_pred, glibc_RAND_MAX]

/-- Witness for C17: the sample trial on the two-state MDP finishes, and its record of
calls has the stated shape. -/
theorem environment_run_trial_calls_witness :
    environment_run_trial constant_agent twoStateMDP glibc_RAND_MAX (fun _ => 0) 2 () 0 =
      some { agent := (), draws := 1, calls := [(0, 0), (1, 10)] } ∧
    ∃ (init : List (Nat × ℚ)) (last : Nat × ℚ),
      [((0 : Nat), (0 : ℚ)), (1, 10)] = init ++ [last] ∧
      [((0 : Nat), (0 : ℚ)), (1, 10)].head? =
        some (twoStateMDP.start, twoStateMDP.rewards twoStateMDP.start) ∧
      (∀ c, c ∈ [((0 : Nat), (0 : ℚ)), (1, 10)] → c.2 = twoStateMDP.rewards c.1) ∧
      twoStateMDP.terminal last.1 = true ∧
      (∀ c, c ∈ init → twoStateMDP.terminal c.1 = false) ∧
      1 = 0 + init.length :=
  ⟨environment_run_trial_sample,
    environment_run_trial_calls constant_agent twoStateMDP glibc_RAND_MAX (fun _ => 0) 2 ()
      0 { agent := (), draws := 1, calls := [(0, 0), (1, 10)] }
      environment_run_trial_sample⟩

/-! ## Properties of environment.c: the structural copy -/

/-- A property that every step of a left fold preserves holds after the fold. -/
theorem foldl_preserves {β γ : Type} (P : β → Prop) (f : β → γ → β)
    (hf : ∀ b c, P b → P (f b c)) : ∀ (l : List γ) (b : β), P b → P (l.foldl f b) := by
  intro l
  induction l with
  | nil => intro b hb; exact hb
  | cons x xs ih => intro b hb; exact ih (f b x) (hf b x hb)

/-- A property of the memory that no assignment to `transitionProb` through `p` breaks
holds after the first loop nest. -/
theorem zero_transitions_preserves (P : EnvMemory → Prop) (p : Nat)
    (hT : ∀ mem s t a, P mem → P (store_transition mem p s t a 0)) (n k : Nat)
    (mem : EnvMemory) (h : P mem) : P (zero_transitions mem p n k) := by
  unfold zero_transitions
  refine foldl_preserves P _ ?_ _ mem h
  intro mem1 s h1
  refine foldl_preserves P _ ?_ _ mem1 h1
  intro mem2 t h2
  refine foldl_preserves P _ ?_ _ mem2 h2
  intro mem3 a h3
  exact hT mem3 s t a h3

/-- A property of the memory that no assignment to `rewards` through `p` breaks holds
after the second loop. -/
theorem zero_rewards_preserves (P : EnvMemory → Prop) (p : Nat)
    (hR : ∀ mem s, P mem → P (store_reward mem p s 0)) (n : Nat)
    (mem : EnvMemory) (h : P mem) : P (zero_rewards mem p n) := by
  unfold zero_rewards
  exact foldl_preserves P _ (fun mem1 s h1 => hR mem1 s h1) _ mem h

/-- An entry of `transitionProb` that is 0 stays 0 under an assignment of 0. -/
theorem store_transition_keeps_zero (mem : EnvMemory) (p s t a s0 t0 a0 : Nat)
    (h : (mem.objects p).transitionProb s0 t0 a0 = 0) :
    ((store_transition mem p s t a 0).objects p).transitionProb s0 t0 a0 = 0 := by
  simp only [store_transition, Function.update_same]
  split
  · rfl
  · exact h

/-- The assignment `p->transitionProb[s][t][a] = 0` leaves that entry 0. -/
theorem store_transition_sets_zero (mem : EnvMemory) (p s t a : Nat) :
    ((store_transition mem p s t a 0).objects p).transitionProb s t a = 0 := by
  simp [store_transition]

/-- After the first loop nest every entry `[s][t][a]` with `s, t < n` and `a < k` is 0. -/
theorem zero_transitions_zero (p k : Nat) :
    ∀ (n n2 : Nat) (mem : EnvMemory) (s t a : Nat), s < n → t < n2 → a < k →
      (((List.range n).foldl (fun mem s =>
        (List.range n2).foldl (fun mem t =>
          (List.range k).foldl (fun mem a =>
            store_transition mem p s t a 0) mem) mem) mem).objects p).transitionProb
        s t a = 0 := by
  have inner : ∀ (k1 : Nat) (mem : EnvMemory) (s t a : Nat), a < k1 →
      (((List.range k1).foldl (fun mem a => store_transition mem p s t a 0) mem).objects
        p).transitionProb s t a = 0 := by
    intro k1
    induction k1 with
    | zero => intro mem s t a ha; omega
    | succ k1 ih =>
      intro mem s t a ha
      rw [List.range_succ, List.foldl_append, List.foldl_cons, List.foldl_nil]
      rcases Nat.lt_succ_iff_lt_or_eq.mp ha with h | h
      · exact store_transition_keeps_zero _ p s t k1 s t a (ih mem s t a h)
      · rw [h]
        exact store_transition_sets_zero _ p s t k1
  have middle : ∀ (n1 : Nat) (mem : EnvMemory) (s t a : Nat), t < n1 → a < k →
      (((List.range n1).foldl (fun mem t =>
        (List.range k).foldl (fun mem a => store_transition mem p s t a 0) mem)
        mem).objects p).transitionProb s t a = 0 := by
    intro n1
    induction n1 with
    | zero => intro mem s t a ht; omega
    | succ n1 ih =>
      intro mem s t a ht ha
      rw [List.range_succ, List.foldl_append, List.foldl_cons, List.foldl_nil]
      rcases Nat.lt_succ_iff_lt_or_eq.mp ht with h | h
      · exact foldl_preserves
          (fun mem1 : EnvMemory => (mem1.objects p).transitionProb s t a = 0) _
          (fun mem1 a1 h1 => store_transition_keeps_zero mem1 p s n1 a1 s t a h1) _ _
          (ih mem s t a h ha)
      · rw [h]
        exact inner k _ s n1 a ha
  intro n
  induction n with
  | zero => intro n2 mem s t a hs; omega
  | succ n ih =>
    intro n2 mem s t a hs ht ha
    rw [List.range_succ, List.foldl_append, List.foldl_cons, List.foldl_nil]
    rcases Nat.lt_succ_iff_lt_or_eq.mp hs with h | h
    · refine foldl_preserves
        (fun mem1 : EnvMemory => (mem1.objects p).transitionProb s t a = 0) _ ?_ _ _
        (ih n2 mem s t a h ht ha)
      intro mem1 t1 h1
      exact foldl_preserves
        (fun mem2 : EnvMemory => (mem2.objects p).transitionProb s t a = 0) _
        (fun mem2 a1 h2 => store_transition_keeps_zero mem2 p n t1 a1 s t a h2) _ _ h1
    · rw [h]
      exact middle n2 _ n t a ht ha

/-- After the second loop every entry of `rewards` below `n` is 0. -/
theorem zero_rewards_zero (p : Nat) :
    ∀ (n : Nat) (mem : EnvMemory) (s : Nat), s < n →
      ((zero_rewards mem p n).objects p).rewards s = 0 := by
  intro n
  induction n with
  | zero => intro mem s hs; omega
  | succ n ih =>
    intro mem s hs
    have hih := ih mem
    unfold zero_rewards at hih ⊢
    rw [List.range_succ, List.foldl_append, List.foldl_cons, List.foldl_nil]
    by_cases h : s = n
    · subst h
      simp [store_reward]
    · have hlt : s < n := by omega
      simp only [store_reward, Function.update_same]
      rw [Function.update_noteq h]
      exact hih s hlt

/-- What the two loops of `environment_get_mdp` leave alone: the global pointer, every
object other than the one written through, and every field of that object other than
`transitionProb` and `rewards`. -/
theorem zero_loops_frame (mem : EnvMemory) (p n k : Nat) :
    (zero_rewards (zero_transitions mem p n k) p n).p_mdp_env = mem.p_mdp_env ∧
    (∀ q, q ≠ p →
      (zero_rewards (zero_transitions mem p n k) p n).objects q = mem.objects q) ∧
    ((zero_rewards (zero_transitions mem p n k) p n).objects p).numStates =
      (mem.objects p).numStates ∧
    ((zero_rewards (zero_transitions mem p n k) p n).objects p).numActions =
      (mem.objects p).numActions ∧
    ((zero_rewards (zero_transitions mem p n k) p n).objects p).start =
      (mem.objects p).start ∧
    ((zero_rewards (zero_transitions mem p n k) p n).objects p).terminal =
      (mem.objects p).terminal ∧
    ((zero_rewards (zero_transitions mem p n k) p n).objects p).numAvailableActions =
      (mem.objects p).numAvailableActions ∧
    ((zero_rewards (zero_transitions mem p n k) p n).objects p).actions =
      (mem.objects p).actions := by
  refine zero_rewards_preserves
    (fun mem1 : EnvMemory => mem1.p_mdp_env = mem.p_mdp_env ∧
      (∀ q, q ≠ p → mem1.objects q = mem.objects q) ∧
      (mem1.objects p).numStates = (mem.objects p).numStates ∧
      (mem1.objects p).numActions = (mem.objects p).numActions ∧
      (mem1.objects p).start = (mem.objects p).start ∧
      (mem1.objects p).terminal = (mem.objects p).terminal ∧
      (mem1.objects p).numAvailableActions = (mem.objects p).numAvailableActions ∧
      (mem1.objects p).actions = (mem.objects p).actions) p ?_ n _ ?_
  · rintro mem1 s ⟨h1, h2, h3, h4, h5, h6, h7, h8⟩
    refine ⟨h1, ?_, ?_, ?_, ?_, ?_, ?_, ?_⟩
    · intro q hq
      simp only [store_reward]
      rw [Function.update_noteq hq]
      exact h2 q hq
    all_goals simp only [store_reward, Function.update_same]
    all_goals assumption
  · refine zero_transitions_preserves
      (fun mem1 : EnvMemory => mem1.p_mdp_env = mem.p_mdp_env ∧
        (∀ q, q ≠ p → mem1.objects q = mem.objects q) ∧
        (mem1.objects p).numStates = (mem.objects p).numStates ∧
        (mem1.objects p).numActions = (mem.objects p).numActions ∧
        (mem1.objects p).start = (mem.objects p).start ∧
        (mem1.objects p).terminal = (mem.objects p).terminal ∧
        (mem1.objects p).numAvailableActions = (mem.objects p).numAvailableActions ∧
        (mem1.objects p).actions = (mem.objects p).actions) p ?_ n k mem
      ⟨rfl, fun _ _ => rfl, rfl, rfl, rfl, rfl, rfl, rfl⟩
    rintro mem1 s t a ⟨h1, h2, h3, h4, h5, h6, h7, h8⟩
    refine ⟨h1, ?_, ?_, ?_, ?_, ?_, ?_, ?_⟩
    · intro q hq
      simp only [store_transition]
      rw [Function.update_noteq hq]
      exact h2 q hq
    all_goals simp only [store_transition, Function.update_same]
    all_goals assumption

/-- C14: for every loaded MDP `m` (an allocated object that `p_mdp_env` points to),
`environment_get_mdp` returns a pointer to a new object `c` with the `numStates`,
`numActions`, `start`, terminal flags and action lists of `m`, with `c.rewards[s] = 0`
for every `s < numStates` and `c.transitionProb[t][s][a] = 0` for every
`t, s < numStates` and `a < numActions`, while `m` and every other object allocated
before the call are unchanged. -/
theorem environment_get_mdp_copy (mem : EnvMemory) (hloaded : mem.p_mdp_env < mem.next) :
    ((environment_get_mdp mem).2.objects (environment_get_mdp mem).1).numStates =
      (mem.objects mem.p_mdp_env).numStates ∧
    ((environment_get_mdp mem).2.objects (environment_get_mdp mem).1).numActions =
      (mem.objects mem.p_mdp_env).numActions ∧
    ((environment_get_mdp mem).2.objects (environment_get_mdp mem).1).start =
      (mem.objects mem.p_mdp_env).start ∧
    ((environment_get_mdp mem).2.objects (environment_get_mdp mem).1).terminal =
      (mem.objects mem.p_mdp_env).terminal ∧
    ((environment_get_mdp mem).2.objects (environment_get_mdp mem).1).numAvailableActions =
      (mem.objects mem.p_mdp_env).numAvailableActions ∧
    ((environment_get_mdp mem).2.objects (environment_get_mdp mem).1).actions =
      (mem.objects mem.p_mdp_env).actions ∧
    (∀ s, s < (mem.objects mem.p_mdp_env).numStates →
      ((environment_get_mdp mem).2.objects (environment_get_mdp mem).1).rewards s = 0) ∧
    (∀ t s a, t < (mem.objects mem.p_mdp_env).numStates →
      s < (mem.objects mem.p_mdp_env).numStates →
      a < (mem.objects mem.p_mdp_env).numActions →
      ((environment_get_mdp mem).2.objects (environment_get_mdp mem).1).transitionProb
        t s a = 0) ∧
    (environment_get_mdp mem).1 ≠ mem.p_mdp_env ∧
    (environment_get_mdp mem).2.p_mdp_env = mem.p_mdp_env ∧
    (∀ q, q < mem.next → (environment_get_mdp mem).2.objects q = mem.objects q) := by
  have hne : mem.p_mdp_env ≠ mem.next := Nat.ne_of_lt hloaded
  have henv : (mdp_duplicate mem mem.p_mdp_env).2.objects
      (mdp_duplicate mem mem.p_mdp_env).2.p_mdp_env = mem.objects mem.p_mdp_env := by
    simp only [mdp_duplicate]
    rw [Function.update_noteq hne]
  have hcopy : (mdp_duplicate mem mem.p_mdp_env).2.objects mem.next =
      mem.objects mem.p_mdp_env := by
    simp [mdp_duplicate]
  have hres : environment_get_mdp mem = (mem.next,
      zero_rewards (zero_transitions (mdp_duplicate mem mem.p_mdp_env).2 mem.next
        (mem.objects mem.p_mdp_env).numStates (mem.objects mem.p_mdp_env).numActions)
        mem.next (mem.objects mem.p_mdp_env).numStates) := by
    simp only [environment_get_mdp, henv]
    rfl
  obtain ⟨f1, f2, f3, f4, f5, f6, f7, f8⟩ :=
    zero_loops_frame (mdp_duplicate mem mem.p_mdp_env).2 mem.next
      (mem.objects mem.p_mdp_env).numStates (mem.objects mem.p_mdp_env).numActions
  rw [hres]
  simp only
  rw [hcopy] at f3 f4 f5 f6 f7 f8
  refine ⟨f3, f4, f5, f6, f7, f8, ?_, ?_, fun h => hne h.symm, ?_, ?_⟩
  · intro s hs
    exact zero_rewards_zero mem.next _ _ s hs
  · intro t s a ht hs ha
    refine zero_rewards_preserves
      (fun mem1 : EnvMemory => (mem1.objects mem.next).transitionProb t s a = 0) mem.next
      ?_ _ _ ?_
    · intro mem1 s1 h1
      simpa [store_reward] using h1
    · exact zero_transitions_zero mem.next _ _ _ _ t s a ht hs ha
  · rw [f1]
    rfl
  · intro q hq
    have hqne : q ≠ mem.next := Nat.ne_of_lt hq
    rw [f2 q hqne]
    simp only [mdp_duplicate]
    rw [Function.update_noteq hqne]

/-- Witness for C14: the memory that holds the two-state MDP at address 0. -/
theorem environment_get_mdp_copy_witness :
    sampleMemory.p_mdp_env < sampleMemory.next ∧
    ((environment_get_mdp sampleMemory).2.objects
      (environment_get_mdp sampleMemory).1).numStates = 2 ∧
    ((environment_get_mdp sampleMemory).2.objects
      (environment_get_mdp sampleMemory).1).rewards 1 = 0 ∧
    ((environment_get_mdp sampleMemory).2.objects
      (environment_get_mdp sampleMemory).1).transitionProb 1 0 0 = 0 ∧
    ((environment_get_mdp sampleMemory).2.objects 0).rewards 1 = 10 ∧
    ((environment_get_mdp sampleMemory).2.objects 0).transitionProb 1 0 0 = 1 := by
  have h := environment_get_mdp_copy sampleMemory (by decide)
  obtain ⟨h1, _, _, _, _, _, h7, h8, _, _, h11⟩ := h
  refine ⟨by decide, h1, h7 1 (by decide), h8 1 0 0 (by decide) (by decide) (by decide), ?_, ?_⟩
  · rw [h11 0 (by decide)]
    simp [sampleMemory, twoStateMDP]
  · rw [h11 0 (by decide)]
    simp [sampleMemory, twoStateMDP]

/-! ## Properties of qlearn.c -/

/-- C18 (the code departs from the claim): on the second-action MDP, whose non-terminal
state 0 has the single available action 1, the first call `rl_agent_action (0, -1)` after
`qlearn_initialize` returns action 0, which is not an entry of `actions[0]`: no
exploration value is strictly larger than that of the initial `prevAction = 0`, so
`prevAction` is returned as it was. -/
theorem qlearn_action_not_member :
    freshSecondAction.p_mdp.terminal 0 = false ∧
    freshSecondAction.p_mdp.numAvailableActions 0 = 1 ∧
    (∀ i, i < freshSecondAction.p_mdp.numAvailableActions 0 →
      freshSecondAction.p_mdp.actions 0 i ≠ 0) ∧
    (QLearn.rl_agent_action freshSecondAction 0 (-1)).map (fun r => r.1) = some 0 := by
  refine ⟨rfl, rfl, ?_, ?_⟩
  · intro i _
    simp [freshSecondAction, QLearn.qlearn_initialize, secondActionMDP]
  · norm_num [QLearn.rl_agent_action, QLearn.observe, QLearn.learn, QLearn.choose,
      QLearn.select_body, QLearn.exploration_function, freshSecondAction,
      QLearn.qlearn_initialize, QLearn.program_start, mdp_malloc_state_action,
      secondActionMDP, max_value, arg_max_value, arg_max_scan, List.range_succ]

/-- C19 (the code departs from the claim): on the second-action MDP with `gamma = 0.9`,
optimistic reward 0 and `attempts = 0`, run one trial from the initialised agent and then
call `rl_agent_action (0, -1)`, as the second trial does.  The call chooses `a* = 0`
with exploration value `f (Q[0,0], N[0,0]) = -10`, while the available action
`actions[0][0] = 1` has exploration value `f (Q[0,1], N[0,1]) = 0`: the selection loop
reads the tables at the loop variable, not at `actions[state][action]`, and starts from
the `prevAction` of the previous call. -/
theorem qlearn_choice_not_maximal :
    ((environment_run_trial QLearn.rl_agent_action secondActionMDP glibc_RAND_MAX
        (fun _ => 0) 2 freshSecondAction 0).bind
      (fun out => QLearn.rl_agent_action out.agent 0 (-1))).map
      (fun r =>
        (r.1,
          QLearn.exploration_function r.2 (r.2.state_action_value 0 r.1)
            (r.2.state_action_freq 0 r.1),
          QLearn.exploration_function r.2
            (r.2.state_action_value 0 (secondActionMDP.actions 0 0))
            (r.2.state_action_freq 0 (secondActionMDP.actions 0 0)))) =
      some (0, -10, 0) ∧
    secondActionMDP.terminal 0 = false ∧
    secondActionMDP.numAvailableActions 0 = 1 ∧ secondActionMDP.actions 0 0 = 1 := by
  refine ⟨?_, rfl, rfl, rfl⟩
  norm_num [environment_run_trial, environment_run_trial_loop, sample_next_state,
    sample_scan, unsigned_pred, glibc_RAND_MAX, QLearn.rl_agent_action, QLearn.observe,
    QLearn.learn, QLearn.choose, QLearn.select_body, QLearn.exploration_function,
    QLearn.updateWeight, freshSecondAction, QLearn.qlearn_initialize, QLearn.program_start,
    mdp_malloc_state_action, set_entry, secondActionMDP, max_value, arg_max_value,
    arg_max_scan, List.range_succ, Function.update]

/-- The entry written by `set_entry`. -/
theorem set_entry_same (table : Nat → Nat → ℚ) (s a : Nat) (v : ℚ) :
    set_entry table s a v s a = v := by
  simp [set_entry]

/-- Every entry other than the one written by `set_entry` keeps its value. -/
theorem set_entry_other (table : Nat → Nat → ℚ) (s a x y : Nat) (v : ℚ)
    (h : (x, y) ≠ (s, a)) : set_entry table s a v x y = table x y := by
  unfold set_entry
  by_cases hx : x = s
  · subst hx
    have hy : y ≠ a := fun hy => h (by rw [hy])
    simp [Function.update_noteq hy]
  · rw [Function.update_noteq hx]

/-- C20: when the Q-learning `rl_agent_action (s, reward)` is called on a non-terminal
state `s` (with at least one available action, so that `max_value` returns), it returns,
and with `maxQ` the maximum of the old `Q[s,a]` over the actions `a` of `actions[s]`:
if `prevValid` was true, `N[prevState,prevAction]` is its old value plus 1,
`Q[prevState,prevAction]` is
`Q_old + (60 / (59 + N_new)) * (prevReward + gamma * maxQ - Q_old)` with `N_new` the
incremented count, and every other entry of `N` and `Q` is unchanged; if `prevValid` was
false, no entry of `N` or `Q` changes. -/
theorem qlearn_update (g : QLearn.Agent) (s : Nat) (reward : ℚ)
    (hnt : g.p_mdp.terminal s = false) (hav : 0 < g.p_mdp.numAvailableActions s) :
    ∃ (maxQ : ℚ) (a : Nat) (g' : QLearn.Agent),
      (∃ j, j < g.p_mdp.numAvailableActions s ∧
        maxQ = g.state_action_value s (g.p_mdp.actions s j)) ∧
      (∀ k, k < g.p_mdp.numAvailableActions s →
        g.state_action_value s (g.p_mdp.actions s k) ≤ maxQ) ∧
      QLearn.rl_agent_action g s reward = some (a, g') ∧
      (g.prevValid = true →
        g'.state_action_freq g.prevState g.prevAction =
          g.state_action_freq g.prevState g.prevAction + 1 ∧
        g'.state_action_value g.prevState g.prevAction =
          g.state_action_value g.prevState g.prevAction +
            60 / (59 + (g.state_action_freq g.prevState g.prevAction + 1)) *
              (g.prevReward + g.gamma * maxQ -
                g.state_action_value g.prevState g.prevAction) ∧
        ∀ x y, (x, y) ≠ (g.prevState, g.prevAction) →
          g'.state_action_freq x y = g.state_action_freq x y ∧
          g'.state_action_value x y = g.state_action_value x y) ∧
      (g.prevValid = false →
        g'.state_action_freq = g.state_action_freq ∧
        g'.state_action_value = g.state_action_value) := by
  obtain ⟨p, hp, hres, hmax, _⟩ := arg_max_value_first_max
    (g.p_mdp.numAvailableActions s) (g.p_mdp.actions s) (g.state_action_value s) hav
  have hobs : QLearn.observe g s reward =
      some (g, g.state_action_value s (g.p_mdp.actions s p)) := by
    simp [QLearn.observe, hnt, max_value, hres]
  have hlearn : (QLearn.learn g (g.state_action_value s (g.p_mdp.actions s p))).p_mdp =
      g.p_mdp := by
    unfold QLearn.learn
    split <;> rfl
  have hchoose : ∀ g1 : QLearn.Agent, g1.p_mdp.terminal s = false →
      (QLearn.choose g1 s reward).state_action_freq = g1.state_action_freq ∧
      (QLearn.choose g1 s reward).state_action_value = g1.state_action_value := by
    intro g1 h1
    simp [QLearn.choose, h1]
  obtain ⟨hcf, hcv⟩ := hchoose
    (QLearn.learn g (g.state_action_value s (g.p_mdp.actions s p))) (by rw [hlearn]; exact hnt)
  refine ⟨g.state_action_value s (g.p_mdp.actions s p),
    (QLearn.choose (QLearn.learn g (g.state_action_value s (g.p_mdp.actions s p)))
      s reward).prevAction,
    QLearn.choose (QLearn.learn g (g.state_action_value s (g.p_mdp.actions s p))) s reward,
    ⟨p, hp, rfl⟩, hmax, ?_, ?_, ?_⟩
  · simp only [QLearn.rl_agent_action, hobs]
  · intro hvalid
    rw [hcf, hcv]
    simp only [QLearn.learn, hvalid, if_true]
    refine ⟨set_entry_same _ _ _ _, ?_, ?_⟩
    · rw [set_entry_same, set_entry_same]
      rfl
    · intro x y hxy
      exact ⟨set_entry_other _ _ _ _ _ _ hxy, set_entry_other _ _ _ _ _ _ hxy⟩
  · intro hvalid
    rw [hcf, hcv]
    simp [QLearn.learn, hvalid]

/-- On a non-terminal state without available actions the Q-learning `rl_agent_action`
aborts in `max_value`, before any table is written. -/
theorem qlearn_aborts_without_actions (g : QLearn.Agent) (s : Nat) (reward : ℚ)
    (hnt : g.p_mdp.terminal s = false) (hav : g.p_mdp.numAvailableActions s = 0) :
    QLearn.rl_agent_action g s reward = none := by
  simp [QLearn.rl_agent_action, QLearn.observe, hnt, max_value, arg_max_value, hav]

/-- Witness for C20: the agent that has just answered its first call on state 0 of the
second-action MDP, so that a transition from state 0 under action 0 with reward -1 is
pending, is called on state 0 again. -/
theorem qlearn_update_witness :
    ({ freshSecondAction with prevValid := true, prevReward := -1 } :
      QLearn.Agent).p_mdp.terminal 0 = false ∧
    0 < ({ freshSecondAction with prevValid := true, prevReward := -1 } :
      QLearn.Agent).p_mdp.numAvailableActions 0 ∧
    ∃ (maxQ : ℚ) (a : Nat) (g' : QLearn.Agent),
      QLearn.rl_agent_action
        ({ freshSecondAction with prevValid := true, prevReward := -1 } : QLearn.Agent)
        0 (-1) = some (a, g') ∧
      g'.state_action_freq 0 0 = 0 + 1 ∧
      g'.state_action_value 0 0 = 0 + 60 / (59 + (0 + 1)) * (-1 + 9 / 10 * maxQ - 0) := by
  refine ⟨rfl, by decide, ?_⟩
  obtain ⟨maxQ, a, g', _, _, hcall, hvalid, _⟩ :=
    qlearn_update ({ freshSecondAction with prevValid := true, prevReward := -1 })
      0 (-1) rfl (by decide)
  exact ⟨maxQ, a, g', hcall, (hvalid rfl).1, (hvalid rfl).2.1⟩

/-- The loop of `rl_agent_action` over a terminal state writes `reward` into the entries
`[state][action]` with `action < k` and nothing else. -/
theorem terminal_fill (table : Nat → Nat → ℚ) (s : Nat) (reward : ℚ) :
    ∀ (k x y : Nat),
      ((List.range k).foldl (fun table action => set_entry table s action reward) table) x y
        = if x = s ∧ y < k then reward else table x y := by
  intro k
  induction k with
  | zero => intro x y; simp
  | succ k ih =>
    intro x y
    rw [List.range_succ, List.foldl_append, List.foldl_cons, List.foldl_nil]
    by_cases hxy : (x, y) = (s, k)
    · obtain ⟨hx, hy⟩ := Prod.mk.inj hxy
      subst hx; subst hy
      rw [set_entry_same]
      simp
    · rw [set_entry_other _ _ _ _ _ _ hxy, ih]
      by_cases hx : x = s
      · have hy : y ≠ k := fun hy => hxy (by rw [hx, hy])
        by_cases hlt : y < k
        · simp [hx, hlt, Nat.lt_succ_of_lt hlt]
        · have : ¬ y < k + 1 := by omega
          simp [hx, hlt, this]
      · simp [hx]

/-- The learning step of the Q-learning agent writes no variable other than the two
tables. -/
theorem learn_frame (g : QLearn.Agent) (maxQ : ℚ) :
    (QLearn.learn g maxQ).p_mdp = g.p_mdp ∧ (QLearn.learn g maxQ).gamma = g.gamma ∧
    (QLearn.learn g maxQ).prevState = g.prevState ∧
    (QLearn.learn g maxQ).prevAction = g.prevAction ∧
    (QLearn.learn g maxQ).prevReward = g.prevReward ∧
    (QLearn.learn g maxQ).prevValid = g.prevValid ∧
    (QLearn.learn g maxQ).bestReward = g.bestReward ∧
    (QLearn.learn g maxQ).minTries = g.minTries := by
  unfold QLearn.learn
  split <;> exact ⟨rfl, rfl, rfl, rfl, rfl, rfl, rfl, rfl⟩

/-- The learning step of the Q-learning agent with a pending transition: the count of
the pending pair is incremented and its value moved towards the target. -/
theorem learn_valid (g : QLearn.Agent) (maxQ : ℚ) (h : g.prevValid = true) :
    (QLearn.learn g maxQ).state_action_freq =
      set_entry g.state_action_freq g.prevState g.prevAction
        (g.state_action_freq g.prevState g.prevAction + 1) ∧
    (QLearn.learn g maxQ).state_action_value =
      set_entry g.state_action_value g.prevState g.prevAction
        (g.state_action_value g.prevState g.prevAction +
          60 / (59 + (g.state_action_freq g.prevState g.prevAction + 1)) *
            (g.prevReward + g.gamma * maxQ -
              g.state_action_value g.prevState g.prevAction)) := by
  unfold QLearn.learn
  rw [if_pos h]
  refine ⟨rfl, ?_⟩
  show set_entry _ _ _ _ = _
  rw [set_entry_same]
  rfl

/-- The learning step of the Q-learning agent without a pending transition does
nothing. -/
theorem learn_invalid (g : QLearn.Agent) (maxQ : ℚ) (h : g.prevValid = false) :
    QLearn.learn g maxQ = g := by
  unfold QLearn.learn
  rw [h]
  rfl

/-- The Q-learning step on a terminal state `s`, with any pending `prevState` a
non-terminal state: what the call returns and what it leaves in the persistent
variables. -/
theorem qlearn_terminal_step (g : QLearn.Agent) (s : Nat) (reward : ℚ)
    (hterm : g.p_mdp.terminal s = true)
    (hprev : g.prevValid = true → g.p_mdp.terminal g.prevState = false) :
    ∃ g' : QLearn.Agent,
      QLearn.rl_agent_action g s reward = some (g.prevAction, g') ∧
      (∀ a, a < g.p_mdp.numActions → g'.state_action_value s a = reward) ∧
      g'.prevValid = false ∧ g'.prevState = g.prevState ∧
      g'.prevAction = g.prevAction ∧ g'.prevReward = g.prevReward ∧
      g'.p_mdp = g.p_mdp ∧ g'.gamma = g.gamma ∧
      (∀ x y, x ≠ s → (x, y) ≠ (g.prevState, g.prevAction) →
        g'.state_action_value x y = g.state_action_value x y) ∧
      (g.prevValid = true →
        g'.state_action_freq g.prevState g.prevAction =
          g.state_action_freq g.prevState g.prevAction + 1 ∧
        g'.state_action_value g.prevState g.prevAction =
          g.state_action_value g.prevState g.prevAction +
            60 / (59 + (g.state_action_freq g.prevState g.prevAction + 1)) *
              (g.prevReward + g.gamma * reward -
                g.state_action_value g.prevState g.prevAction)) := by
  have hobs : QLearn.observe g s reward = some (QLearn.terminal_agent g s reward, reward) := by
    simp [QLearn.observe, QLearn.terminal_agent, hterm]
  obtain ⟨hmdp, hgam, hps, hpa, hpr, _, _, _⟩ :=
    learn_frame (QLearn.terminal_agent g s reward) reward
  have ht : (QLearn.learn (QLearn.terminal_agent g s reward) reward).p_mdp.terminal s =
      true := by
    rw [hmdp]
    exact hterm
  have hchoose : QLearn.choose (QLearn.learn (QLearn.terminal_agent g s reward) reward)
      s reward =
      { QLearn.learn (QLearn.terminal_agent g s reward) reward with prevValid := false } := by
    unfold QLearn.choose
    rw [if_pos ht]
  have hcall : QLearn.rl_agent_action g s reward =
      some (g.prevAction,
        { QLearn.learn (QLearn.terminal_agent g s reward) reward with prevValid := false }) := by
    simp only [QLearn.rl_agent_action, hobs, hchoose]
    congr 2
  have hfill : ∀ x y, (QLearn.terminal_agent g s reward).state_action_value x y =
      if x = s ∧ y < g.p_mdp.numActions then reward else g.state_action_value x y :=
    fun x y => terminal_fill g.state_action_value s reward g.p_mdp.numActions x y
  refine ⟨_, hcall, ?_, rfl, hps, hpa, hpr, hmdp, hgam, ?_, ?_⟩
  · intro a ha
    show (QLearn.learn (QLearn.terminal_agent g s reward) reward).state_action_value s a =
      reward
    by_cases hvalid : g.prevValid = true
    · have hne : g.prevState ≠ s := by
        intro heq
        have h1 := hprev hvalid
        rw [heq, hterm] at h1
        exact Bool.noConfusion h1
      have hxy : (s, a) ≠ (g.prevState, g.prevAction) := by
        intro h
        exact hne (Prod.mk.inj h).1.symm
      rw [(learn_valid (QLearn.terminal_agent g s reward) reward hvalid).2]
      show set_entry _ g.prevState g.prevAction _ s a = reward
      rw [set_entry_other _ _ _ _ _ _ hxy, hfill]
      simp [ha]
    · have hfalse : (QLearn.terminal_agent g s reward).prevValid = false := by
        simpa [QLearn.terminal_agent] using hvalid
      rw [learn_invalid _ _ hfalse, hfill]
      simp [ha]
  · intro x y hx hxy
    show (QLearn.learn (QLearn.terminal_agent g s reward) reward).state_action_value x y =
      g.state_action_value x y
    by_cases hvalid : g.prevValid = true
    · rw [(learn_valid (QLearn.terminal_agent g s reward) reward hvalid).2]
      show set_entry _ g.prevState g.prevAction _ x y = _
      rw [set_entry_other _ _ _ _ _ _ hxy, hfill]
      simp [hx]
    · have hfalse : (QLearn.terminal_agent g s reward).prevValid = false := by
        simpa [QLearn.terminal_agent] using hvalid
      rw [learn_invalid _ _ hfalse, hfill]
      simp [hx]
  · intro hvalid
    have hne : g.prevState ≠ s := by
      intro heq
      have h1 := hprev hvalid
      rw [heq, hterm] at h1
      exact Bool.noConfusion h1
    obtain ⟨hN, hQ⟩ := learn_valid (QLearn.terminal_agent g s reward) reward hvalid
    refine ⟨?_, ?_⟩
    · show (QLearn.learn (QLearn.terminal_agent g s reward) reward).state_action_freq
        g.prevState g.prevAction = _
      rw [hN]
      exact set_entry_same _ _ _ _
    · show (QLearn.learn (QLearn.terminal_agent g s reward) reward).state_action_value
        g.prevState g.prevAction = _
      have hq0 : (QLearn.terminal_agent g s reward).state_action_value g.prevState
          g.prevAction = g.state_action_value g.prevState g.prevAction := by
        rw [hfill]
        simp [hne]
      rw [hQ]
      show set_entry _ g.prevState g.prevAction _ g.prevState g.prevAction = _
      rw [set_entry_same]
      show (QLearn.terminal_agent g s reward).state_action_value g.prevState g.prevAction +
        60 / (59 + (g.state_action_freq g.prevState g.prevAction + 1)) *
          (g.prevReward + g.gamma * reward -
            (QLearn.terminal_agent g s reward).state_action_value g.prevState g.prevAction)
        = _
      rw [hq0]

/-- C21: when the Q-learning `rl_agent_action (s, reward)` is called on a terminal state
`s`, with any pending `prevState` a non-terminal state, it returns the `prevAction` held
before the call, and afterwards `Q[s,a] = reward` for every `a < numActions`,
`prevValid` is false, `prevState`, `prevAction` and `prevReward` are unchanged, and the
pending update, when there is one, has used `reward` as `maxQ`. -/
theorem qlearn_terminal (g : QLearn.Agent) (s : Nat) (reward : ℚ)
    (hterm : g.p_mdp.terminal s = true)
    (hprev : g.prevValid = true → g.p_mdp.terminal g.prevState = false) :
    ∃ g' : QLearn.Agent,
      QLearn.rl_agent_action g s reward = some (g.prevAction, g') ∧
      (∀ a, a < g.p_mdp.numActions → g'.state_action_value s a = reward) ∧
      g'.prevValid = false ∧ g'.prevState = g.prevState ∧
      g'.prevAction = g.prevAction ∧ g'.prevReward = g.prevReward ∧
      (g.prevValid = true →
        g'.state_action_freq g.prevState g.prevAction =
          g.state_action_freq g.prevState g.prevAction + 1 ∧
        g'.state_action_value g.prevState g.prevAction =
          g.state_action_value g.prevState g.prevAction +
            60 / (59 + (g.state_action_freq g.prevState g.prevAction + 1)) *
              (g.prevReward + g.gamma * reward -
                g.state_action_value g.prevState g.prevAction)) := by
  obtain ⟨g', hcall, hq, hvalid, hps, hpa, hpr, _, _, _, hupd⟩ :=
    qlearn_terminal_step g s reward hterm hprev
  exact ⟨g', hcall, hq, hvalid, hps, hpa, hpr, hupd⟩

/-- Witness for C21: the agent that has just answered its first call on state 0 of the
second-action MDP, with a transition from state 0 pending, is called on the terminal
state 1 with reward -10. -/
theorem qlearn_terminal_witness :
    ({ freshSecondAction with prevValid := true, prevReward := -1 } :
      QLearn.Agent).p_mdp.terminal 1 = true ∧
    ∃ g' : QLearn.Agent,
      QLearn.rl_agent_action
        ({ freshSecondAction with prevValid := true, prevReward := -1 } : QLearn.Agent)
        1 (-10) = some (0, g') ∧
      g'.state_action_value 1 0 = -10 ∧ g'.state_action_value 1 1 = -10 ∧
      g'.prevValid = false := by
  refine ⟨rfl, ?_⟩
  obtain ⟨g', hcall, hq, hvalid, _⟩ :=
    qlearn_terminal ({ freshSecondAction with prevValid := true, prevReward := -1 })
      1 (-10) rfl (fun _ => rfl)
  exact ⟨g', hcall, hq 0 (by decide), hq 1 (by decide), hvalid⟩

/-! ## Q-learning on the single-action two-state MDPs -/

/-- On a single-action MDP, the Q-learning step on the start state without a pending
transition and with `prevAction = 0` returns action 0, whatever the available action is,
and records the pending transition; no table is written. -/
theorem single_first_call (a : Nat) (r0 r1 : ℚ) (g : QLearn.Agent) (reward : ℚ)
    (hm : g.p_mdp = singleActionMDP a r0 r1) (hv : g.prevValid = false)
    (hpa : g.prevAction = 0) :
    QLearn.rl_agent_action g 0 reward =
      some (0, { g with prevState := 0, prevAction := 0, prevReward := reward,
                        prevValid := true }) := by
  have hobs : QLearn.observe g 0 reward = some (g, g.state_action_value 0 a) := by
    simp [QLearn.observe, hm, singleActionMDP, max_value, arg_max_value, arg_max_scan]
  have hchoose : QLearn.choose g 0 reward =
      { g with prevState := 0, prevAction := 0, prevReward := reward, prevValid := true } := by
    have ht : g.p_mdp.terminal 0 = false := by rw [hm]; rfl
    have hn : g.p_mdp.numAvailableActions 0 = 1 := by rw [hm]; rfl
    unfold QLearn.choose
    rw [ht, hn, hpa]
    simp [QLearn.select_body, List.range_succ]
  simp only [QLearn.rl_agent_action, hobs, learn_invalid g _ hv, hchoose]

/-- On a single-action MDP every non-negative draw leads from state 0 under action 0 to
state 1: either action 0 is the available action, or no cumulative sum exceeds the draw
and the scan ends at the last state. -/
theorem single_sample (a : Nat) (r0 r1 r : ℚ) (hr : 0 ≤ r) :
    sample_next_state (singleActionMDP a r0 r1) 0 0 r = some 1 := by
  have htp : (singleActionMDP a r0 r1).transitionProb 0 0 0 = 0 := by
    simp [singleActionMDP]
  have h : ¬ ((0 : ℚ) + (singleActionMDP a r0 r1).transitionProb 0 0 0 > r) := by
    rw [htp, zero_add]
    exact not_lt.mpr hr
  have hB : ¬ (0 + 1 < unsigned_pred (singleActionMDP a r0 r1).numStates) := by
    show ¬ (0 + 1 < unsigned_pred 2)
    unfold unsigned_pred
    norm_num
  show sample_scan (singleActionMDP a r0 r1) 0 0 r 2 0 0 = some 1
  rw [sample_scan, if_neg h, if_neg hB]

/-- One trial of the Q-learning agent on a single-action MDP, started without a pending
transition and with `prevAction = 0`: the trial finishes in two steps, moves `Q[0,0]`
towards `r0 + gamma * r1` with the weight of the incremented count, and leaves every
other `Q[0,y]` as it was. -/
theorem single_trial (a : Nat) (r0 r1 : ℚ) (RAND_MAX : Nat) (random : Nat → Nat)
    (g : QLearn.Agent) (draws : Nat) (hm : g.p_mdp = singleActionMDP a r0 r1)
    (hv : g.prevValid = false) (hpa : g.prevAction = 0) :
    ∃ out : TrialOutcome QLearn.Agent,
      environment_run_trial QLearn.rl_agent_action (singleActionMDP a r0 r1) RAND_MAX
        random 2 g draws = some out ∧
      out.agent.p_mdp = singleActionMDP a r0 r1 ∧ out.agent.gamma = g.gamma ∧
      out.agent.prevValid = false ∧ out.agent.prevAction = 0 ∧
      out.agent.state_action_value 0 0 =
        g.state_action_value 0 0 +
          60 / (59 + (g.state_action_freq 0 0 + 1)) *
            (r0 + g.gamma * r1 - g.state_action_value 0 0) ∧
      (∀ y, y ≠ 0 → out.agent.state_action_value 0 y = g.state_action_value 0 y) := by
  have hterm1 : ∀ g1 : QLearn.Agent, g1.p_mdp = g.p_mdp → g1.p_mdp.terminal 1 = true := by
    intro g1 h1
    rw [h1, hm]
    rfl
  have hprev1 : ∀ g1 : QLearn.Agent, g1.p_mdp = g.p_mdp → g1.prevState = 0 →
      g1.p_mdp.terminal g1.prevState = false := by
    intro g1 h1 h2
    rw [h1, h2, hm]
    rfl
  obtain ⟨g2, hcall2, _, hvalid2, _, hpa2, _, hmdp2, hgam2, hframe, hupd⟩ :=
    qlearn_terminal_step
      { g with prevState := 0, prevAction := 0, prevReward := r0, prevValid := true }
      1 r1 (hterm1 _ rfl) (fun _ => hprev1 _ rfl rfl)
  have hdraw : (0 : ℚ) ≤ (random draws : ℚ) / (RAND_MAX : ℚ) :=
    div_nonneg (Nat.cast_nonneg _) (Nat.cast_nonneg _)
  have hr0 : (singleActionMDP a r0 r1).rewards 0 = r0 := by simp [singleActionMDP]
  have hr1 : (singleActionMDP a r0 r1).rewards 1 = r1 := by simp [singleActionMDP]
  have ht0 : (singleActionMDP a r0 r1).terminal 0 = false := rfl
  have ht1 : (singleActionMDP a r0 r1).terminal 1 = true := rfl
  have hstart : (singleActionMDP a r0 r1).start = 0 := rfl
  refine ⟨{ agent := g2, draws := draws + 1, calls := [(0, r0), (1, r1)] }, ?_, ?_, hgam2,
    hvalid2, hpa2, (hupd rfl).2, ?_⟩
  · simp [environment_run_trial, environment_run_trial_loop, hstart, hr0, hr1, ht0, ht1,
      single_first_call a r0 r1 g r0 hm hv hpa, single_sample a r0 r1 _ hdraw, hcall2]
  · rw [hmdp2]
    exact hm
  · intro y hy
    refine hframe 0 y (by decide) ?_
    intro h
    exact hy (Prod.mk.inj h).2

/-- Any number of trials of the Q-learning agent on a single-action MDP, started from an
agent whose `Q[0,0]` already is `r0 + gamma * r1`, finish, leave `Q[0,0]` at that value
and leave every other `Q[0,y]` as it was. -/
theorem single_run (a : Nat) (r0 r1 gamma : ℚ) (RAND_MAX : Nat) (random : Nat → Nat) :
    ∀ (n : Nat) (g : QLearn.Agent) (draws : Nat), g.p_mdp = singleActionMDP a r0 r1 →
      g.gamma = gamma → g.prevValid = false → g.prevAction = 0 →
      g.state_action_value 0 0 = r0 + gamma * r1 →
      ∃ out : QLearn.Agent × Nat,
        environment_run QLearn.rl_agent_action (singleActionMDP a r0 r1) RAND_MAX random 2
          n g draws = some out ∧
        out.1.state_action_value 0 0 = r0 + gamma * r1 ∧
        (∀ y, y ≠ 0 → out.1.state_action_value 0 y = g.state_action_value 0 y) := by
  intro n
  induction n with
  | zero =>
    intro g draws _ _ _ _ hq
    exact ⟨(g, draws), rfl, hq, fun _ _ => rfl⟩
  | succ n ih =>
    intro g draws hm hgam hv hpa hq
    obtain ⟨out, hout, hm', hgam', hv', hpa', hq', hother⟩ :=
      single_trial a r0 r1 RAND_MAX random g draws hm hv hpa
    have hq2 : out.agent.state_action_value 0 0 = r0 + gamma * r1 := by
      rw [hq', hq, hgam]
      ring
    obtain ⟨res, hres, hfinal, hkeep⟩ :=
      ih out.agent out.draws hm' (by rw [hgam', hgam]) hv' hpa' hq2
    refine ⟨res, ?_, hfinal, fun y hy => by rw [hkeep y hy, hother y hy]⟩
    simp only [environment_run, hout]
    exact hres

/-- On every single-action MDP, with `attempts = 0` and freshly initialised tables, every
number `n ≥ 1` of trials finishes and leaves `Q[0,0] = r0 + gamma * r1`; when the
available action `a` is not action 0, `Q[0,a]` is still 0. -/
theorem single_action_fixed_point (a : Nat) (r0 r1 gamma reward : ℚ) (RAND_MAX : Nat)
    (random : Nat → Nat) (n : Nat) (hn : 1 ≤ n) :
    ∃ out : QLearn.Agent × Nat,
      environment_run QLearn.rl_agent_action (singleActionMDP a r0 r1) RAND_MAX random 2 n
        (freshSingleAction a r0 r1 gamma reward) 0 = some out ∧
      out.1.state_action_value 0 0 = r0 + gamma * r1 ∧
      (a ≠ 0 → out.1.state_action_value 0 a = 0) := by
  obtain ⟨k, rfl⟩ : ∃ k, n = k + 1 := ⟨n - 1, by omega⟩
  obtain ⟨out, hout, hm', hgam', hv', hpa', hq', hother⟩ :=
    single_trial a r0 r1 RAND_MAX random (freshSingleAction a r0 r1 gamma reward) 0
      rfl rfl rfl
  have hq2 : out.agent.state_action_value 0 0 = r0 + gamma * r1 := by
    rw [hq']
    show (0 : ℚ) + 60 / (59 + (0 + 1)) * (r0 + gamma * r1 - 0) = r0 + gamma * r1
    norm_num
  obtain ⟨res, hres, hfinal, hkeep⟩ :=
    single_run a r0 r1 gamma RAND_MAX random k out.agent out.draws hm' hgam' hv' hpa' hq2
  refine ⟨res, ?_, hfinal, fun ha => ?_⟩
  · simp only [environment_run, hout]
    exact hres
  · rw [hkeep a ha, hother a ha]
    rfl

/-- C22 (the code departs from the claim): on a deterministic single-action two-state
MDP with `attempts = 0` and fresh tables, every number `n ≥ 1` of trials leaves
`Q[0,0] = r0 + gamma * r1`, which is the claim when the available action is action 0.
When the available action `a` is another one, the agent still answers with the initial
`prevAction = 0`, the update lands on `Q[0,0]`, and `Q[0,a]` stays 0: on the
second-action MDP (`a = 1`, `r0 = -1`, `r1 = -10`, `gamma = 0.9`) the claimed value of
`Q[0,1]` is -10 and the code leaves 0 after every number of trials. -/
theorem qlearn_single_action_estimate :
    (∀ (a : Nat) (r0 r1 gamma reward : ℚ) (RAND_MAX : Nat) (random : Nat → Nat) (n : Nat),
      1 ≤ n →
      ∃ out : QLearn.Agent × Nat,
        environment_run QLearn.rl_agent_action (singleActionMDP a r0 r1) RAND_MAX random 2 n
          (freshSingleAction a r0 r1 gamma reward) 0 = some out ∧
        out.1.state_action_value 0 0 = r0 + gamma * r1 ∧
        (a ≠ 0 → out.1.state_action_value 0 a = 0)) ∧
    secondActionMDP = singleActionMDP 1 (-1) (-10) ∧
    freshSecondAction = freshSingleAction 1 (-1) (-10) (9 / 10) 0 ∧
    secondActionMDP.actions 0 0 = 1 ∧
    secondActionMDP.rewards 0 + 9 / 10 * secondActionMDP.rewards 1 = -10 ∧
    (∀ (RAND_MAX : Nat) (random : Nat → Nat) (n : Nat), 1 ≤ n →
      ∃ out : QLearn.Agent × Nat,
        environment_run QLearn.rl_agent_action secondActionMDP RAND_MAX random 2 n
          freshSecondAction 0 = some out ∧
        out.1.state_action_value 0 1 = 0 ∧ out.1.state_action_value 0 0 = -10) := by
  refine ⟨single_action_fixed_point, rfl, rfl, rfl, ?_, ?_⟩
  · norm_num [secondActionMDP]
  · intro RAND_MAX random n hn
    obtain ⟨out, hout, hq0, hqa⟩ :=
      single_action_fixed_point 1 (-1) (-10) (9 / 10) 0 RAND_MAX random n hn
    refine ⟨out, hout, hqa (by decide), ?_⟩
    rw [hq0]
    norm_num

/-! ## Properties of td.c -/

/-- C23 (the code departs from the claim): the passive-TD `rl_agent_action` returns
`policy[state]` and writes no persistent variable.  On the second-action MDP with
`gamma = 0.9`, after the call on the non-terminal state 0 with reward -1 `prevValid` is
still false, and after the following call on state 1 with reward -10 `utilities[0]` is
still 0; the TD(0) update of the claim gives
`0 + (60 / (59 + 1)) * (-1 + 0.9 * 0 - 0) = -1`. -/
theorem td_action_no_update :
    (∀ (g : TD.Agent) (state : Nat) (reward : ℚ),
      TD.rl_agent_action g state reward = some (g.policy state, g)) ∧
    freshTD.p_mdp.terminal 0 = false ∧
    (TD.rl_agent_action freshTD 0 (-1)).map (fun r => (r.1, r.2.prevValid)) =
      some (1, false) ∧
    ((TD.rl_agent_action freshTD 0 (-1)).bind
      (fun r => TD.rl_agent_action r.2 1 (-10))).map
      (fun r => (r.2.utilities 0, r.2.state_freq 0)) = some (0, 0) ∧
    (0 : ℚ) + TD.updateWeight (0 + 1) * (-1 + 9 / 10 * 0 - 0) = -1 := by
  refine ⟨fun _ _ _ => rfl, rfl, rfl, rfl, ?_⟩
  norm_num [TD.updateWeight]

/-! ## States without available actions -/

/-- C24 (the code departs from the claim): no caller guards the case
`numAvailableActions[s] = 0`.  The body of `value_iteration` calls `calc_meu` for every
non-terminal state and the body of `policy_iteration` for every state, whatever
`numAvailableActions[s]` is, and the Q-learning `rl_agent_action` calls `max_value` for
every non-terminal state.  On the dead-start MDP, whose start state 0 is not terminal and
has no available action, the documented `calc_meu` has an empty action list to maximise
over, and the first call `rl_agent_action (0, 0)` of a trial aborts in `max_value`. -/
theorem dead_state_not_guarded :
    (∀ (meuK : MeuKernel) (m : MDP) (gamma : ℚ) (utilities : Nat → ℚ)
        (acc : (Nat → ℚ) × ℚ) (s : Nat), m.terminal s = false →
      (value_iteration_body meuK m gamma utilities acc s).1 s =
        m.rewards s + gamma * (meuK m s utilities 0 0).1) ∧
    (∀ (euK : EuKernel) (meuK : MeuKernel) (m : MDP) (utilities : Nat → ℚ)
        (acc : (Nat → Nat) × Bool) (s : Nat),
      policy_iteration_body euK meuK m utilities acc s =
        if (meuK m s utilities 0 0).1 > euK m s utilities 0 then
          (Function.update acc.1 s (double_to_unsigned (meuK m s utilities 0 0).1), true)
        else acc) ∧
    (∀ (g : QLearn.Agent) (s : Nat) (reward : ℚ), g.p_mdp.terminal s = false →
      g.p_mdp.numAvailableActions s = 0 → QLearn.rl_agent_action g s reward = none) ∧
    deadStartMDP.start < deadStartMDP.numStates ∧
    deadStartMDP.terminal deadStartMDP.start = false ∧
    deadStartMDP.numAvailableActions deadStartMDP.start = 0 ∧
    calc_meu_spec calc_eu_spec deadStartMDP 0 (fun _ => 0) = none ∧
    QLearn.rl_agent_action freshDeadStart 0 0 = none ∧
    environment_run_trial QLearn.rl_agent_action deadStartMDP glibc_RAND_MAX (fun _ => 0) 1
      freshDeadStart 0 = none := by
  have habort : QLearn.rl_agent_action freshDeadStart 0 0 = none :=
    qlearn_aborts_without_actions freshDeadStart 0 0 rfl rfl
  refine ⟨?_, fun _ _ _ _ _ _ => rfl, qlearn_aborts_without_actions, by decide, rfl, rfl,
    ?_, habort, ?_⟩
  · intro meuK m gamma utilities acc s hs
    simp [value_iteration_body, hs]
  · simp [calc_meu_spec, arg_max_value, deadStartMDP]
  · have hrew : deadStartMDP.rewards deadStartMDP.start = 0 := by simp [deadStartMDP]
    have hstart : deadStartMDP.start = 0 := rfl
    simp [environment_run_trial, environment_run_trial_loop, hstart, hrew, habort]
    simp [deadStartMDP, habort]

/-! ## The random draw -/

/-- The draw of the trial loop is `random_draw`: on a non-terminal state, after the agent
has answered, the next state is sampled with `random_draw RAND_MAX (random draws)`. -/
theorem environment_run_trial_loop_draw {α : Type}
    (agentFn : α → Nat → ℚ → Option (Nat × α)) (m : MDP) (RAND_MAX : Nat)
    (random : Nat → Nat) (fuel state : Nat) (agent agent' : α) (draws action : Nat)
    (calls : List (Nat × ℚ)) (hterm : m.terminal state = false)
    (hcall : agentFn agent state (m.rewards state) = some (action, agent')) :
    environment_run_trial_loop agentFn m RAND_MAX random (fuel + 1) state agent draws calls =
      match sample_next_state m state action (random_draw RAND_MAX (random draws)) with
      | none => none
      | some nextState =>
        environment_run_trial_loop agentFn m RAND_MAX random fuel nextState agent'
          (draws + 1) (calls ++ [(state, m.rewards state)]) := by
  rw [environment_run_trial_loop]
  simp only [hcall, hterm]
  rfl

/-- C25 as stated fails: when `random ()` returns `RAND_MAX` (2^31 - 1 in the GNU C
library) the draw is exactly 1, which is not strictly less than 1. -/
theorem random_draw_half_open_counterexample :
    glibc_RAND_MAX ≤ glibc_RAND_MAX ∧ random_draw glibc_RAND_MAX glibc_RAND_MAX = 1 ∧
    ¬ (random_draw glibc_RAND_MAX glibc_RAND_MAX < 1) := by
  norm_num [random_draw, glibc_RAND_MAX]

/-- C25 (amended): the draw `random () / RAND_MAX`, with `random ()` ranging over the
integers `0 .. RAND_MAX` and `RAND_MAX > 0`, lies in the closed interval `[0, 1]`; it is
strictly less than 1 exactly when `random ()` is below `RAND_MAX`. -/
theorem random_draw_closed_interval (RAND_MAX k : Nat) (hpos : 0 < RAND_MAX)
    (hk : k ≤ RAND_MAX) :
    0 ≤ random_draw RAND_MAX k ∧ random_draw RAND_MAX k ≤ 1 ∧
    (random_draw RAND_MAX k < 1 ↔ k < RAND_MAX) := by
  have hR : (0 : ℚ) < (RAND_MAX : ℚ) := by exact_mod_cast hpos
  have hkR : (k : ℚ) ≤ (RAND_MAX : ℚ) := by exact_mod_cast hk
  unfold random_draw
  refine ⟨div_nonneg (Nat.cast_nonneg k) (le_of_lt hR), (div_le_one hR).mpr hkR, ?_⟩
  rw [div_lt_one hR]
  exact Nat.cast_lt

/-- Witness for C25: the largest value of `random ()` in the GNU C library. -/
theorem random_draw_closed_interval_witness :
    0 < glibc_RAND_MAX ∧ glibc_RAND_MAX ≤ glibc_RAND_MAX ∧
    0 ≤ random_draw glibc_RAND_MAX glibc_RAND_MAX ∧
    random_draw glibc_RAND_MAX glibc_RAND_MAX ≤ 1 ∧
    (random_draw glibc_RAND_MAX glibc_RAND_MAX < 1 ↔ glibc_RAND_MAX < glibc_RAND_MAX) :=
  ⟨by decide, le_refl _,
    random_draw_closed_interval glibc_RAND_MAX glibc_RAND_MAX (by decide) (le_refl _)⟩

/-- C26 (the code departs from the claim): with at least two states the next state the
scan computes is below `numStates`, for every state, action, transition array and draw.
With a single state it need not be: on the one-state MDP whose state is not terminal and
leads back to itself with probability 1, the draw 1 gives the next state 1, which is
`numStates`. -/
theorem sample_next_state_out_of_range :
    (∀ (m : MDP) (s a : Nat) (r : ℚ), 2 ≤ m.numStates → m.numStates < 4294967296 →
      ∃ t, sample_next_state m s a r = some t ∧ t < m.numStates) ∧
    1 ≤ selfLoopMDP.numStates ∧ selfLoopMDP.terminal 0 = false ∧
    (0 : ℚ) ≤ 1 ∧ (1 : ℚ) ≤ 1 ∧
    sample_next_state selfLoopMDP 0 0 1 = some 1 ∧ ¬ (1 < selfLoopMDP.numStates) := by
  refine ⟨?_, by decide, rfl, by norm_num, le_refl _, ?_, by decide⟩
  · intro m s a r h2 hmax
    obtain ⟨t, ht, hlt, _⟩ := sample_next_state_spec m s a r h2 hmax
    exact ⟨t, ht, hlt⟩
  · norm_num [sample_next_state, sample_scan, selfLoopMDP, unsigned_pred]

/-! ## The policy argument of policy_evaluation -/

/-- The loop of `policy_evaluation` runs the same way under any two policies, over any
`calc_eu`. -/
theorem policy_evaluation_loop_policy (euK : EuKernel) (p1 p2 : Nat → Nat) (m : MDP)
    (epsilon gamma : ℚ) (fuel : Nat) (utilities util_update : Nat → ℚ) :
    policy_evaluation_loop euK p1 m epsilon gamma fuel utilities util_update =
      policy_evaluation_loop euK p2 m epsilon gamma fuel utilities util_update := by
  induction fuel generalizing utilities util_update with
  | zero => rfl
  | succ n ih =>
    simp only [policy_evaluation_loop]
    have hsweep : policy_evaluation_sweep euK p1 m gamma utilities util_update =
        policy_evaluation_sweep euK p2 m gamma utilities util_update := rfl
    rw [hsweep, ih]

/-- C27: the result of `policy_evaluation` does not depend on its policy argument.  For
every MDP, `epsilon`, `gamma`, initial table and sweep budget, and any two policies `p1`
and `p2`, the two calls give the same outcome, over the repository's `calc_eu` and over
any other; and whenever `epsilon ≥ 0` both calls return, with one and the same table. -/
theorem policy_evaluation_ignores_policy (p1 p2 : Nat → Nat) (m : MDP)
    (epsilon gamma : ℚ) (U0 : Nat → ℚ) (fuel : Nat) :
    policy_evaluation p1 m epsilon gamma U0 fuel =
      policy_evaluation p2 m epsilon gamma U0 fuel ∧
    (∀ euK : EuKernel, policy_evaluation_with euK p1 m epsilon gamma U0 fuel =
      policy_evaluation_with euK p2 m epsilon gamma U0 fuel) ∧
    (0 ≤ epsilon → 2 ≤ fuel →
      ∃ U, policy_evaluation p1 m epsilon gamma U0 fuel = some U ∧
        policy_evaluation p2 m epsilon gamma U0 fuel = some U) := by
  refine ⟨policy_evaluation_loop_policy calc_eu p1 p2 m epsilon gamma fuel U0 _,
    fun euK => policy_evaluation_loop_policy euK p1 p2 m epsilon gamma fuel U0 _, ?_⟩
  intro heps hfuel
  exact ⟨_, policy_evaluation_result p1 m epsilon gamma U0 fuel heps hfuel,
    policy_evaluation_result p2 m epsilon gamma U0 fuel heps hfuel⟩

/-! ## One round of policy_iteration -/

/-- C28: for every MDP, `epsilon > 0`, `0 < gamma < 1` and initial policy, the
repository's `policy_iteration` returns after one evaluation-and-improvement round (a
budget of one round is enough, and so is every larger one; each evaluation needs two
sweeps): the improvement pass of that round leaves `changed` false, and the policy
returned is the policy passed in, so every entry that was a member of `actions[s]` still
is. -/
theorem policy_iteration_single_round (m : MDP) (epsilon gamma : ℚ) (policy : Nat → Nat)
    (evalFuel fuel : Nat) (heps : 0 < epsilon) (hg0 : 0 < gamma) (hg1 : gamma < 1)
    (hevalFuel : 2 ≤ evalFuel) (hfuel : 1 ≤ fuel) :
    policy_iteration m epsilon gamma policy evalFuel 1 = some policy ∧
    policy_iteration m epsilon gamma policy evalFuel fuel = some policy ∧
    (∃ U, policy_evaluation policy m epsilon gamma (bzero m.numStates (fun _ => 0))
        evalFuel = some U ∧
      policy_iteration_sweep calc_eu calc_meu m U policy = (policy, false)) ∧
    ∀ p', policy_iteration m epsilon gamma policy evalFuel fuel = some p' →
      ∀ s i, i < m.numAvailableActions s → policy s = m.actions s i →
        p' s = m.actions s i := by
  have hres := policy_iteration_result m epsilon gamma policy evalFuel fuel
    (le_of_lt heps) hevalFuel hfuel
  refine ⟨policy_iteration_result m epsilon gamma policy evalFuel 1 (le_of_lt heps)
    hevalFuel (le_refl 1), hres,
    ⟨_, policy_evaluation_result policy m epsilon gamma _ evalFuel (le_of_lt heps)
      hevalFuel, policy_iteration_sweep_stub m _ policy⟩, ?_⟩
  intro p' hp' s i _ hmem
  rw [hres] at hp'
  cases hp'
  exact hmem

/-- Witness for C28: the two-action MDP with the policy `{1, 1}`, `epsilon = 0.01` and
`gamma = 0.9`. -/
theorem policy_iteration_single_round_witness :
    (0 : ℚ) < 1 / 100 ∧ (0 : ℚ) < 9 / 10 ∧ (9 / 10 : ℚ) < 1 ∧ 2 ≤ 2 ∧ 1 ≤ 3 ∧
    policy_iteration twoActionMDP (1 / 100) (9 / 10) policyAllOne 2 1 = some policyAllOne ∧
    policy_iteration twoActionMDP (1 / 100) (9 / 10) policyAllOne 2 3 = some policyAllOne ∧
    (∃ U, policy_evaluation policyAllOne twoActionMDP (1 / 100) (9 / 10)
        (bzero twoActionMDP.numStates (fun _ => 0)) 2 = some U ∧
      policy_iteration_sweep calc_eu calc_meu twoActionMDP U policyAllOne =
        (policyAllOne, false)) ∧
    ∀ p', policy_iteration twoActionMDP (1 / 100) (9 / 10) policyAllOne 2 3 = some p' →
      ∀ s i, i < twoActionMDP.numAvailableActions s →
        policyAllOne s = twoActionMDP.actions s i → p' s = twoActionMDP.actions s i :=
  ⟨by norm_num, by norm_num, by norm_num, le_refl 2, by decide,
    policy_iteration_single_round twoActionMDP (1 / 100) (9 / 10) policyAllOne 2 3
      (by norm_num) (by norm_num) (by norm_num) (le_refl 2) (by decide)⟩

/-! ## The learning rate of the Q-learning update -/

/-- The learning rate `60 / (59 + n)` for a count `n ≥ 1`. -/
theorem updateWeight_range (n : ℚ) (hn : 1 ≤ n) :
    0 < QLearn.updateWeight n ∧ QLearn.updateWeight n ≤ 1 ∧
    (QLearn.updateWeight n = 1 ↔ n = 1) := by
  have hpos : (0 : ℚ) < 59 + n := by linarith
  unfold QLearn.updateWeight
  refine ⟨div_pos (by norm_num) hpos, (div_le_one hpos).mpr (by linarith), ?_⟩
  rw [div_eq_one_iff_eq (ne_of_gt hpos)]
  constructor
  · intro h
    linarith
  · intro h
    rw [h]
    norm_num

/-- C29: the learning rate `alpha (n) = 60 / (59 + n)` of the Q-learning update
satisfies `0 < alpha (n) ≤ 1` for every count `n ≥ 1`, and `alpha (n) = 1` exactly when
`n = 1`.  In the update step with a pending transition whose count
`N[prevState,prevAction]` is not negative (counts start at 0 and are only incremented),
the new `Q[prevState,prevAction]` lies between its old value and the target
`prevReward + gamma * maxQ`, both included, and when the count was 0 (the first update
of the pair) it is exactly the target. -/
theorem qlearn_learning_rate (g : QLearn.Agent) (maxQ n : ℚ) (hn : 1 ≤ n)
    (hv : g.prevValid = true)
    (hN : 0 ≤ g.state_action_freq g.prevState g.prevAction) :
    0 < QLearn.updateWeight n ∧ QLearn.updateWeight n ≤ 1 ∧
    (QLearn.updateWeight n = 1 ↔ n = 1) ∧
    min (g.state_action_value g.prevState g.prevAction) (g.prevReward + g.gamma * maxQ) ≤
      (QLearn.learn g maxQ).state_action_value g.prevState g.prevAction ∧
    (QLearn.learn g maxQ).state_action_value g.prevState g.prevAction ≤
      max (g.state_action_value g.prevState g.prevAction) (g.prevReward + g.gamma * maxQ) ∧
    (g.state_action_freq g.prevState g.prevAction = 0 →
      (QLearn.learn g maxQ).state_action_value g.prevState g.prevAction =
        g.prevReward + g.gamma * maxQ) := by
  obtain ⟨h1, h2, h3⟩ := updateWeight_range n hn
  refine ⟨h1, h2, h3, ?_⟩
  obtain ⟨_, hQ⟩ := learn_valid g maxQ hv
  rw [hQ, set_entry_same]
  obtain ⟨ha0, ha1, _⟩ := updateWeight_range
    (g.state_action_freq g.prevState g.prevAction + 1) (by linarith)
  unfold QLearn.updateWeight at ha0 ha1
  generalize g.state_action_value g.prevState g.prevAction = q at *
  generalize g.prevReward + g.gamma * maxQ = t at *
  generalize g.state_action_freq g.prevState g.prevAction = c at *
  generalize hw : (60 : ℚ) / (59 + (c + 1)) = w at *
  refine ⟨?_, ?_, ?_⟩
  · rcases le_total q t with hqt | hqt
    · rw [min_eq_left hqt]
      nlinarith [mul_nonneg (le_of_lt ha0) (sub_nonneg.mpr hqt)]
    · rw [min_eq_right hqt]
      nlinarith [mul_nonneg (sub_nonneg.mpr ha1) (sub_nonneg.mpr hqt)]
  · rcases le_total q t with hqt | hqt
    · rw [max_eq_right hqt]
      nlinarith [mul_nonneg (sub_nonneg.mpr ha1) (sub_nonneg.mpr hqt)]
    · rw [max_eq_left hqt]
      nlinarith [mul_nonneg (le_of_lt ha0) (sub_nonneg.mpr hqt)]
  · intro hc
    rw [hc] at hw
    norm_num at hw
    rw [← hw]
    ring

/-- Witness for C29: the count 1 and the agent on the first-action MDP with a pending
transition and `maxQ = 10`. -/
theorem qlearn_learning_rate_witness :
    (1 : ℚ) ≤ 1 ∧ pendingAgent.prevValid = true ∧
    0 ≤ pendingAgent.state_action_freq pendingAgent.prevState pendingAgent.prevAction ∧
    0 < QLearn.updateWeight 1 ∧ QLearn.updateWeight 1 ≤ 1 ∧
    (QLearn.updateWeight 1 = 1 ↔ (1 : ℚ) = 1) ∧
    min (pendingAgent.state_action_value pendingAgent.prevState pendingAgent.prevAction)
        (pendingAgent.prevReward + pendingAgent.gamma * 10) ≤
      (QLearn.learn pendingAgent 10).state_action_value pendingAgent.prevState
        pendingAgent.prevAction ∧
    (QLearn.learn pendingAgent 10).state_action_value pendingAgent.prevState
        pendingAgent.prevAction ≤
      max (pendingAgent.state_action_value pendingAgent.prevState pendingAgent.prevAction)
        (pendingAgent.prevReward + pendingAgent.gamma * 10) ∧
    (pendingAgent.state_action_freq pendingAgent.prevState pendingAgent.prevAction = 0 →
      (QLearn.learn pendingAgent 10).state_action_value pendingAgent.prevState
        pendingAgent.prevAction = pendingAgent.prevReward + pendingAgent.gamma * 10) :=
  ⟨le_refl 1, rfl, by simp [pendingAgent, staleAgent, QLearn.qlearn_initialize,
      mdp_malloc_state_action, firstActionMDP],
    qlearn_learning_rate pendingAgent 10 1 (le_refl 1) rfl
      (by simp [pendingAgent, staleAgent, QLearn.qlearn_initialize,
        mdp_malloc_state_action, firstActionMDP])⟩

/-! ## The selection loop of the Q-learning agent -/

/-- The selection loop over `k` candidates whose action list is the identity ends on the
first position, in the order `p0, 0, 1, ..., k - 1`, that attains the largest exploration
value. -/
theorem select_fold_spec (g : QLearn.Agent) (s p0 k : Nat)
    (hid : ∀ i, i < k → g.p_mdp.actions s i = i) :
    ∃ p, p ≤ k ∧
      (List.range k).foldl (QLearn.select_body g s) p0 = selection_order p0 p ∧
      (∀ q, q ≤ k → QLearn.exploration_value g s (selection_order p0 q) ≤
        QLearn.exploration_value g s (selection_order p0 p)) ∧
      (∀ q, q < p → QLearn.exploration_value g s (selection_order p0 q) <
        QLearn.exploration_value g s (selection_order p0 p)) := by
  induction k with
  | zero =>
    refine ⟨0, le_refl 0, rfl, ?_, ?_⟩
    · intro q hq
      have hq0 : q = 0 := by omega
      rw [hq0]
    · intro q hq
      omega
  | succ k ih =>
    obtain ⟨p, hpk, hfold, hmax, hfirst⟩ := ih (fun i hi => hid i (by omega))
    rw [List.range_succ, List.foldl_append, hfold]
    show ∃ p', p' ≤ k + 1 ∧
      QLearn.select_body g s (selection_order p0 p) k = selection_order p0 p' ∧ _
    by_cases hgt : QLearn.exploration_value g s k >
        QLearn.exploration_value g s (selection_order p0 p)
    · have hsel : QLearn.select_body g s (selection_order p0 p) k = k := by
        unfold QLearn.select_body
        unfold QLearn.exploration_value at hgt
        rw [if_pos hgt]
        exact hid k (by omega)
      refine ⟨k + 1, le_refl _, hsel, ?_, ?_⟩
      · intro q hq
        show _ ≤ QLearn.exploration_value g s k
        rcases Nat.lt_or_ge q (k + 1) with hlt | hge
        · exact le_of_lt (lt_of_le_of_lt (hmax q (by omega)) hgt)
        · have hqe : q = k + 1 := by omega
          rw [hqe]
          exact le_refl _
      · intro q hq
        show _ < QLearn.exploration_value g s k
        exact lt_of_le_of_lt (hmax q (by omega)) hgt
    · have hsel : QLearn.select_body g s (selection_order p0 p) k =
          selection_order p0 p := by
        unfold QLearn.select_body
        unfold QLearn.exploration_value at hgt
        rw [if_neg hgt]
      refine ⟨p, by omega, hsel, ?_, hfirst⟩
      intro q hq
      rcases Nat.lt_or_ge q (k + 1) with hlt | hge
      · exact hmax q (by omega)
      · have hqe : q = k + 1 := by omega
        rw [hqe]
        exact not_lt.mp hgt

/-- The selection step on a non-terminal state leaves the tables, the MDP and the two
parameters of the exploration function as they are, and sets `prevAction` to the result
of the selection loop. -/
theorem choose_nonterminal (g : QLearn.Agent) (s : Nat) (reward : ℚ)
    (hterm : g.p_mdp.terminal s = false) :
    (QLearn.choose g s reward).prevAction =
      (List.range (g.p_mdp.numAvailableActions s)).foldl (QLearn.select_body g s)
        g.prevAction ∧
    (∀ x, QLearn.exploration_value (QLearn.choose g s reward) s x =
      QLearn.exploration_value g s x) ∧
    (QLearn.choose g s reward).prevState = s ∧
    (QLearn.choose g s reward).prevReward = reward ∧
    (QLearn.choose g s reward).prevValid = true := by
  unfold QLearn.choose
  rw [hterm]
  exact ⟨rfl, fun _ => rfl, rfl, rfl, rfl⟩

/-- C30: in the Q-learning `rl_agent_action` on a non-terminal state `s` whose action
list is the identity, the selection step (lines 184-196) ends with `prevAction` the first
position `p`, in the order `p0, 0, 1, ..., numAvailableActions[s] - 1` with `p0` the
incoming `prevAction`, that attains the maximum of `f (Q[s,x], N[s,x])` over that list;
`p0` is kept whenever no available action has a strictly larger exploration value.  When
`s` has an available action the call returns, and the action it returns is that one, the
exploration values being read from the tables the call leaves. -/
theorem qlearn_selection_order (g : QLearn.Agent) (s : Nat) (reward : ℚ)
    (hterm : g.p_mdp.terminal s = false)
    (hid : ∀ i, i < g.p_mdp.numAvailableActions s → g.p_mdp.actions s i = i) :
    (∃ p, p ≤ g.p_mdp.numAvailableActions s ∧
      (QLearn.choose g s reward).prevAction = selection_order g.prevAction p ∧
      (∀ q, q ≤ g.p_mdp.numAvailableActions s →
        QLearn.exploration_value g s (selection_order g.prevAction q) ≤
          QLearn.exploration_value g s (selection_order g.prevAction p)) ∧
      (∀ q, q < p → QLearn.exploration_value g s (selection_order g.prevAction q) <
        QLearn.exploration_value g s (selection_order g.prevAction p))) ∧
    ((∀ i, i < g.p_mdp.numAvailableActions s →
        QLearn.exploration_value g s i ≤ QLearn.exploration_value g s g.prevAction) →
      (QLearn.choose g s reward).prevAction = g.prevAction) ∧
    (0 < g.p_mdp.numAvailableActions s →
      ∃ a g' p, QLearn.rl_agent_action g s reward = some (a, g') ∧
        p ≤ g.p_mdp.numAvailableActions s ∧ a = selection_order g.prevAction p ∧
        g'.prevAction = a ∧
        (∀ q, q ≤ g.p_mdp.numAvailableActions s →
          QLearn.exploration_value g' s (selection_order g.prevAction q) ≤
            QLearn.exploration_value g' s (selection_order g.prevAction p)) ∧
        (∀ q, q < p → QLearn.exploration_value g' s (selection_order g.prevAction q) <
          QLearn.exploration_value g' s (selection_order g.prevAction p)) ∧
        ((∀ i, i < g.p_mdp.numAvailableActions s →
            QLearn.exploration_value g' s i ≤ QLearn.exploration_value g' s g.prevAction) →
          a = g.prevAction)) := by
  have hkeep : ∀ (h : QLearn.Agent) (p0 k p : Nat), p ≤ k →
      (∀ q, q < p → QLearn.exploration_value h s (selection_order p0 q) <
        QLearn.exploration_value h s (selection_order p0 p)) →
      (∀ i, i < k → QLearn.exploration_value h s i ≤ QLearn.exploration_value h s p0) →
      selection_order p0 p = p0 := by
    intro h p0 k p hpk hfirst hle
    cases p with
    | zero => rfl
    | succ j =>
      have h1 := hfirst 0 (by omega)
      have h2 := hle j (by omega)
      exact absurd h1 (not_lt.mpr h2)
  obtain ⟨hpa, _, _, _, _⟩ := choose_nonterminal g s reward hterm
  obtain ⟨p, hpk, hfold, hmax, hfirst⟩ := select_fold_spec g s g.prevAction
    (g.p_mdp.numAvailableActions s) hid
  refine ⟨⟨p, hpk, by rw [hpa, hfold], hmax, hfirst⟩, ?_, ?_⟩
  · intro hle
    rw [hpa, hfold]
    exact hkeep g g.prevAction _ p hpk hfirst hle
  · intro hk
    obtain ⟨i, hi⟩ : ∃ i, arg_max_value (g.p_mdp.numAvailableActions s)
        (g.p_mdp.actions s) (g.state_action_value s) = some i := by
      unfold arg_max_value
      rw [if_pos hk]
      exact ⟨_, rfl⟩
    have hobs : QLearn.observe g s reward = some (g, g.state_action_value s i) := by
      unfold QLearn.observe
      rw [hterm]
      simp [max_value, hi]
    obtain ⟨hm, _, _, hp0, _, _, _, _⟩ := learn_frame g (g.state_action_value s i)
    have hterm2 : (QLearn.learn g (g.state_action_value s i)).p_mdp.terminal s = false := by
      rw [hm]
      exact hterm
    have hid2 : ∀ j,
        j < (QLearn.learn g (g.state_action_value s i)).p_mdp.numAvailableActions s →
        (QLearn.learn g (g.state_action_value s i)).p_mdp.actions s j = j := by
      rw [hm]
      exact hid
    obtain ⟨hpa2, hval2, _, _, _⟩ := choose_nonterminal
      (QLearn.learn g (g.state_action_value s i)) s reward hterm2
    obtain ⟨p2, hpk2, hfold2, hmax2, hfirst2⟩ := select_fold_spec
      (QLearn.learn g (g.state_action_value s i)) s
      (QLearn.learn g (g.state_action_value s i)).prevAction
      ((QLearn.learn g (g.state_action_value s i)).p_mdp.numAvailableActions s) hid2
    rw [hp0] at hfold2 hmax2 hfirst2
    rw [hm] at hpk2 hfold2 hmax2
    rw [hm, hp0] at hpa2
    have hcall : QLearn.rl_agent_action g s reward =
        some ((QLearn.choose (QLearn.learn g (g.state_action_value s i)) s reward).prevAction,
          QLearn.choose (QLearn.learn g (g.state_action_value s i)) s reward) := by
      unfold QLearn.rl_agent_action
      rw [hobs]
    refine ⟨_, _, p2, hcall, hpk2, by rw [hpa2, hfold2], rfl, ?_, ?_, ?_⟩
    · intro q hq
      rw [hval2, hval2]
      exact hmax2 q hq
    · intro q hq
      rw [hval2, hval2]
      exact hfirst2 q hq
    · intro hle
      rw [hpa2, hfold2]
      refine hkeep (QLearn.learn g (g.state_action_value s i)) g.prevAction _ p2 hpk2
        hfirst2 ?_
      intro j hj
      have := hle j hj
      rw [hval2, hval2] at this
      exact this

/-- Witness for C30: the stale agent on the first-action MDP, called on state 0.  Its
`prevAction` is 1, which is not available in state 0, and the call returns it. -/
theorem qlearn_selection_order_witness :
    staleAgent.p_mdp.terminal 0 = false ∧
    (∀ i, i < staleAgent.p_mdp.numAvailableActions 0 → staleAgent.p_mdp.actions 0 i = i) ∧
    staleAgent.prevAction = 1 ∧ staleAgent.p_mdp.numAvailableActions 0 = 1 ∧
    (∀ i, i < staleAgent.p_mdp.numAvailableActions 0 → staleAgent.p_mdp.actions 0 i ≠ 1) ∧
    ((∀ i, i < staleAgent.p_mdp.numAvailableActions 0 →
        QLearn.exploration_value staleAgent 0 i ≤
          QLearn.exploration_value staleAgent 0 staleAgent.prevAction) →
      (QLearn.choose staleAgent 0 0).prevAction = staleAgent.prevAction) ∧
    (QLearn.rl_agent_action staleAgent 0 0).map (fun r => r.1) = some 1 :=
  ⟨rfl, fun _ _ => rfl, rfl, rfl,
    by
      intro i hi
      have hi0 : i = 0 := by
        have : staleAgent.p_mdp.numAvailableActions 0 = 1 := rfl
        omega
      rw [hi0]
      decide,
    (qlearn_selection_order staleAgent 0 0 rfl (fun _ _ => rfl)).2.1,
    by
      norm_num [QLearn.rl_agent_action, QLearn.observe, QLearn.learn, QLearn.choose,
        QLearn.select_body, QLearn.exploration_function, staleAgent,
        QLearn.qlearn_initialize, QLearn.program_start, mdp_malloc_state_action,
        firstActionMDP, max_value, arg_max_value, arg_max_scan, List.range_succ]⟩

end Mdp
